import Mathlib

/-!
Shallow embedding of src/is_EF11.py (repository Matankl/NFD_algorithm_and_website).

The Python function `is_EF11(instance, bundles)` certifies EF[1,1] for a
two-agent allocation.  Agents and items are opaque hashables; here both are
modelled as natural numbers.  Item values are Python floats produced by the
valuation oracle `instance.agent_item_value`; they are modelled as rationals.
An item's category is `instance.item_categories[item]` when the instance
carries categories and the Python value None otherwise, so the category type
is `Option Nat` (`none` is the implicit single category used when
`item_categories is None`).

`bundles` is a Python dict from agent to an iterable of items; dict iteration
order is insertion order, so it is modelled as an association list.
-/

namespace EF11

abbrev Agent := Nat
abbrev Item := Nat
abbrev Cat := Option Nat

/-- The valuation oracle and category lookup carried by the Python `Instance`
object: `agent_item_value(agent, item)` and the helper `cat_of` built at the
top of `is_EF11` (lines 29-33), which is `lambda item: None` when the
instance has no `item_categories` and `lambda item: item_cat[item]`
otherwise.  Both cases are a total function into `Option Nat`. -/
structure Instance where
  agent_item_value : Agent → Item → ℚ
  cat_of : Item → Cat

/-- `bundles`: the allocation, a dict from agent to its list of items. -/
abbrev Bundles := List (Agent × List Item)

/-- `bundles[a]`: the bundle of agent `a` (first entry with that key). -/
def bundleOf : Bundles → Agent → List Item
  | [], _ => []
  | (b, l) :: rest, a => if b = a then l else bundleOf rest a

/-- The items traversed by the double loop
`for ag, Bundel in bundles.items(): for item in Bundel`, in order. -/
def allItems (bs : Bundles) : List Item :=
  (bs.map Prod.snd).flatten

/-- One of the per-category extremum dicts
(`wost_chore_in_cat_eyes_of_self[X]` paired with `wost_chore_item[X]`, or
`best_good_in_cat_eyes_of_other[X]` paired with `best_good_item[X]`): the two
Python dicts are updated together under the same guard, so each is a single
map from category to (value, item). -/
abbrev ExtMap := List (Cat × ℚ × Item)

/-- Dict lookup on an extremum map. -/
def lookupCat : ExtMap → Cat → Option (ℚ × Item)
  | [], _ => none
  | (c2, p) :: rest, c => if c2 = c then some p else lookupCat rest c

/-- Dict assignment `m[c] = p` (replaces the entry if the key is present,
appends it otherwise, as a Python dict does). -/
def setEntry : ExtMap → Cat → ℚ × Item → ExtMap
  | [], c, p => [(c, p)]
  | (c2, q) :: rest, c, p =>
      if c2 = c then (c, p) :: rest else (c2, q) :: setEntry rest c p

/-- Lines 59-62 / 85-88: `d = dict.get(c, inf); if v < d:` store `(v, item)`
at key `c`.  An absent key behaves as `inf`, which every float is below, so
an absent key is always overwritten. -/
def updMin (m : ExtMap) (c : Cat) (v : ℚ) (it : Item) : ExtMap :=
  match lookupCat m c with
  | none => setEntry m c (v, it)
  | some (d, _) => if v < d then setEntry m c (v, it) else m

/-- Lines 64-67 / 90-93: `d = dict.get(c, -inf); if v > d:` store `(v, item)`
at key `c`. -/
def updMax (m : ExtMap) (c : Cat) (v : ℚ) (it : Item) : ExtMap :=
  match lookupCat m c with
  | none => setEntry m c (v, it)
  | some (d, _) => if d < v then setEntry m c (v, it) else m

/-- The running state of one perspective pass (lines 47-67 for agent A,
lines 73-93 for agent B): the two running totals and the two extremum maps
that the pass fills in. -/
structure AggState where
  totSelf : ℚ
  totOther : ℚ
  wostChore : ExtMap
  bestGood : ExtMap
deriving Repr, DecidableEq

/-- The body of the traversal loop for perspective agent `P` whose own bundle
is `sb` (`bundles[P]` in the Python).  Mirrors lines 50-67: add `v` to the
own or other total according to `item in bundles[P]`, then the
`if v < 0 and item in bundles[P] ... elif v > 0 and item not in bundles[P]`
extremum updates. -/
def aggStep (inst : Instance) (sb : List Item) (P : Agent) (s : AggState)
    (item : Item) : AggState :=
  let v := inst.agent_item_value P item
  let c := inst.cat_of item
  let tS := if item ∈ sb then s.totSelf + v else s.totSelf
  let tO := if item ∈ sb then s.totOther else s.totOther + v
  if v < 0 ∧ item ∈ sb then
    ⟨tS, tO, updMin s.wostChore c v item, s.bestGood⟩
  else if v > 0 ∧ item ∉ sb then
    ⟨tS, tO, s.wostChore, updMax s.bestGood c v item⟩
  else
    ⟨tS, tO, s.wostChore, s.bestGood⟩

/-- One full perspective pass: the whole allocation is traversed once with
agent `P`'s eyes, starting from totals `0.0` and empty dicts. -/
def aggregate (inst : Instance) (bs : Bundles) (P : Agent) : AggState :=
  (allItems bs).foldl (aggStep inst (bundleOf bs P) P) ⟨0, 0, [], []⟩

/-- One record appended to `result['swap_pairs'][X]` (lines 135-143). -/
structure SwapCandidate where
  category : Cat
  remove_from_own : Item
  remove_from_other : Item
  chore_value : ℚ
  good_value : ℚ
  total_gain : ℚ
  eliminates_envy : Bool
deriving Repr, DecidableEq

/-- One entry of `result['bundle_values']` (lines 104-113). -/
structure BundleValues where
  own_bundle_value : ℚ
  other_bundle_value : ℚ
  gap : ℚ
deriving Repr, DecidableEq

/-- The result dictionary (lines 99-115), with the two fixed agents made
explicit: `swap_pairsA`/`swap_pairsB` are `swap_pairs[A]`/`swap_pairs[B]`
and likewise for the bundle values. -/
structure Verdict where
  agentA : Agent
  agentB : Agent
  is_ef11 : Bool
  violating_pair : Option (Agent × Agent)
  swap_pairsA : List SwapCandidate
  swap_pairsB : List SwapCandidate
  bundle_valuesA : BundleValues
  bundle_valuesB : BundleValues
deriving Repr, DecidableEq

/-- `gap = total_for_itself - total_for_other` for perspective `P`
(lines 107, 112, 120, 154). -/
def gapOf (inst : Instance) (bs : Bundles) (P : Agent) : ℚ :=
  (aggregate inst bs P).totSelf - (aggregate inst bs P).totOther

/-- Lines 128-143 / 162-177: one swap candidate per category in
`set(wost_chore_map).intersection(best_good_map)`, built from the two
extremum entries of that category, with `gain = -chore_val + good_val` and
`eliminates_envy = gain >= needed`.  The Python iterates the intersection
as a set, in unspecified order; here the candidates come in the chore
dict's key insertion order.  The candidates produced are the same, one per
intersection category; no property below depends on their order. -/
def mkCandidates (needed : ℚ) (chore good : ExtMap) : List SwapCandidate :=
  chore.filterMap (fun e =>
    match lookupCat good e.1 with
    | some (gv, gi) =>
        some { category := e.1
               remove_from_own := e.2.2
               remove_from_other := gi
               chore_value := e.2.1
               good_value := gv
               total_gain := -e.2.1 + gv
               eliminates_envy := decide (-e.2.1 + gv ≥ needed) }
    | none => none)

/-- The swap-pair list recorded for perspective `P`: empty when
`gap >= 0` (the direction is skipped), otherwise every candidate of the
category intersection with `needed = -gap`. -/
def swapListOf (inst : Instance) (bs : Bundles) (P : Agent) :
    List SwapCandidate :=
  if gapOf inst bs P < 0 then
    mkCandidates (-(gapOf inst bs P)) (aggregate inst bs P).wostChore
      (aggregate inst bs P).bestGood
  else []

/-- `gap < 0 and not envy_eliminated` for perspective `P`: the direction is
checked and fails (lines 121 and 148 / 155 and 182). -/
def dirFails (inst : Instance) (bs : Bundles) (P : Agent) : Bool :=
  decide (gapOf inst bs P < 0) &&
    !(swapListOf inst bs P).any (fun cd => cd.eliminates_envy)

/-- Bundle-value summary for perspective `P` (lines 104-113). -/
def bvOf (inst : Instance) (bs : Bundles) (P : Agent) : BundleValues :=
  ⟨(aggregate inst bs P).totSelf, (aggregate inst bs P).totOther,
    gapOf inst bs P⟩

/-- Lines 117-187 with the two agents `A` and `B` already fixed: check the
direction A-envies-B first; on failure return at once (line 151) with B's
swap list still empty; otherwise check B-envies-A; otherwise succeed. -/
def resolve (inst : Instance) (bs : Bundles) (A B : Agent) : Verdict :=
  if dirFails inst bs A then
    ⟨A, B, false, some (A, B), swapListOf inst bs A, [],
      bvOf inst bs A, bvOf inst bs B⟩
  else if dirFails inst bs B then
    ⟨A, B, false, some (B, A), swapListOf inst bs A, swapListOf inst bs B,
      bvOf inst bs A, bvOf inst bs B⟩
  else
    ⟨A, B, true, none, swapListOf inst bs A, swapListOf inst bs B,
      bvOf inst bs A, bvOf inst bs B⟩

/-- The whole of `is_EF11`: lines 25-26 take the first two dict keys
(`A, B = agents[0], agents[1]`), which raises IndexError - modelled as
`none` - when fewer than two agents are present; any further agents are
ignored for the roles of A and B but their items are still traversed. -/
def is_EF11 (inst : Instance) (bs : Bundles) : Option Verdict :=
  match bs with
  | (A, _) :: (B, _) :: _ => some (resolve inst bs A B)
  | _ => none

/-! ### The per-category effect of the extremum updates

Fixing one category, the pass's effect on that category's entry is a fold of
the following accumulators over the qualifying items in traversal order. -/

/-- Effect of one `updMin` step on the tracked entry of a fixed category. -/
def minAcc (val : Item → ℚ) (acc : Option (ℚ × Item)) (it : Item) :
    Option (ℚ × Item) :=
  match acc with
  | none => some (val it, it)
  | some (d, j) => if val it < d then some (val it, it) else some (d, j)

/-- Effect of one `updMax` step on the tracked entry of a fixed category. -/
def maxAcc (val : Item → ℚ) (acc : Option (ℚ × Item)) (it : Item) :
    Option (ℚ × Item) :=
  match acc with
  | none => some (val it, it)
  | some (d, j) => if d < val it then some (val it, it) else some (d, j)


/-! ### The qualifying items of one perspective, per category -/

/-- The items that qualify for the worst-chore entry of category `c` seen by
`P`: traversed, held by `P`, negative in `P`'s eyes, of category `c`; in
traversal order. -/
def choreQual (inst : Instance) (bs : Bundles) (P : Agent) (c : Cat) :
    List Item :=
  (allItems bs).filter (fun i =>
    decide (i ∈ bundleOf bs P) && decide (inst.agent_item_value P i < 0) &&
      decide (inst.cat_of i = c))

/-- The items that qualify for the best-good entry of category `c` seen by
`P`: traversed, not held by `P`, positive in `P`'s eyes, of category `c`. -/
def goodQual (inst : Instance) (bs : Bundles) (P : Agent) (c : Cat) :
    List Item :=
  (allItems bs).filter (fun i =>
    decide (i ∉ bundleOf bs P) && decide (inst.agent_item_value P i > 0) &&
      decide (inst.cat_of i = c))



/-! ### Concrete test instances

`instCE`/`bundlesCE`: two agents 0 and 1; agent 0 holds items 1 (category 1,
value -10) and 2 (category 2, value -5) and sees item 3 (category 1) at
value 1; agent 1 holds item 3 (value -1 in its eyes) and sees item 1 at
value 2 and item 2 at value 0.  Direction 0-envies-1 fails (needed 16,
best gain 11), so the check stops there although agent 1 also envies. -/

def instCE : Instance :=
  ⟨fun a i =>
      if a = 0 then
        if i = 1 then -10 else if i = 2 then -5 else if i = 3 then 1 else 0
      else
        if i = 1 then 2 else if i = 3 then -1 else 0,
    fun i => if i = 2 then some 2 else some 1⟩

def bundlesCE : Bundles := [(0, [1, 2]), (1, [3])]

/-- The single swap candidate direction 0-envies-1 records on `instCE`:
swap chore 1 against good 3 in category 1, gain 11, not enough for the
needed 16. -/
def candCE : SwapCandidate := ⟨some 1, 1, 3, -10, 1, 11, false⟩

/-- The verdict `is_EF11` returns on `instCE`/`bundlesCE`. -/
def vCE : Verdict :=
  ⟨0, 1, false, some (0, 1), [candCE], [], ⟨-15, 1, -16⟩, ⟨-1, 2, -3⟩⟩

/-- Like `instCE` but agent 1 values items 1 and 2 at 0: agent 1 still
envies (gap -1) and now has an empty candidate-category intersection, while
direction 0-envies-1 still fails first. -/
def instC6 : Instance :=
  ⟨fun a i =>
      if a = 0 then
        if i = 1 then -10 else if i = 2 then -5 else if i = 3 then 1 else 0
      else
        if i = 3 then -1 else 0,
    fun i => if i = 2 then some 2 else some 1⟩

/-- The verdict `is_EF11` returns on `instC6`/`bundlesCE`. -/
def vC6 : Verdict :=
  ⟨0, 1, false, some (0, 1), [⟨some 1, 1, 3, -10, 1, 11, false⟩], [],
    ⟨-15, 1, -16⟩, ⟨-1, 0, -1⟩⟩

/-- An oracle that values everything at 0. -/
def instZero : Instance := ⟨fun _ _ => 0, fun _ => none⟩

/-- A three-agent allocation. -/
def bs7 : Bundles := [(0, [0]), (1, [1]), (2, [2])]

/-- Agent 0 sees item 2 (held by agent 1) at 1 and item 5 (held by the
third agent 2) at 3; everything else is 0. -/
def inst9 : Instance :=
  ⟨fun a i =>
      if a = 0 then if i = 2 then 1 else if i = 5 then 3 else 0 else 0,
    fun _ => none⟩

/-- A three-agent allocation where the third agent holds item 5. -/
def bs9 : Bundles := [(0, [1]), (1, [2]), (2, [5])]

/-- Agent 0 holds a chore (item 1, value -1) and agent 1 holds nothing of
positive value to agent 0, so agent 0 envies with an empty intersection. -/
def instE : Instance :=
  ⟨fun a i => if a = 0 then if i = 1 then -1 else 0 else 0, fun _ => none⟩

def bsE : Bundles := [(0, [1]), (1, [2])]

/-- A two-agent allocation for the all-zero oracle. -/
def bsZ : Bundles := [(0, [1]), (1, [2])]

/-- The verdict `is_EF11` returns on `instE`/`bsE`. -/
def vE : Verdict :=
  ⟨0, 1, false, some (0, 1), [], [], ⟨-1, 0, -1⟩, ⟨0, 0, 0⟩⟩

/-! ### Association-map lemmas -/

theorem lookupCat_setEntry_self (m : ExtMap) (c : Cat) (p : ℚ × Item) :
    lookupCat (setEntry m c p) c = some p := by
  induction m with
  | nil => simp [setEntry, lookupCat]
  | cons e rest ih =>
    obtain ⟨c2, q⟩ := e
    by_cases h : c2 = c
    · simp [setEntry, h, lookupCat]
    · simp [setEntry, h, lookupCat, ih]

theorem lookupCat_setEntry_ne (m : ExtMap) (c c' : Cat) (p : ℚ × Item)
    (h : c ≠ c') : lookupCat (setEntry m c p) c' = lookupCat m c' := by
  induction m with
  | nil => simp [setEntry, lookupCat, h]
  | cons e rest ih =>
    obtain ⟨c2, q⟩ := e
    by_cases h2 : c2 = c
    · subst h2; simp [setEntry, lookupCat, h]
    · simp [setEntry, h2, lookupCat, ih]

theorem lookupCat_updMin_self (m : ExtMap) (c : Cat) (v : ℚ) (it : Item) :
    lookupCat (updMin m c v it) c =
      match lookupCat m c with
      | none => some (v, it)
      | some (d, j) => if v < d then some (v, it) else some (d, j) := by
  unfold updMin
  cases h : lookupCat m c with
  | none => simp [lookupCat_setEntry_self]
  | some p =>
    obtain ⟨d, j⟩ := p
    by_cases hv : v < d
    · simp [hv, lookupCat_setEntry_self]
    · simp [hv, h]

theorem lookupCat_updMin_ne (m : ExtMap) (c : Cat) (v : ℚ) (it : Item)
    (c' : Cat) (h : c ≠ c') :
    lookupCat (updMin m c v it) c' = lookupCat m c' := by
  unfold updMin
  cases lookupCat m c with
  | none => exact lookupCat_setEntry_ne _ _ _ _ h
  | some p =>
    obtain ⟨d, j⟩ := p
    by_cases hv : v < d <;> simp [hv, lookupCat_setEntry_ne _ _ _ _ h]

theorem lookupCat_updMax_self (m : ExtMap) (c : Cat) (v : ℚ) (it : Item) :
    lookupCat (updMax m c v it) c =
      match lookupCat m c with
      | none => some (v, it)
      | some (d, j) => if d < v then some (v, it) else some (d, j) := by
  unfold updMax
  cases h : lookupCat m c with
  | none => simp [lookupCat_setEntry_self]
  | some p =>
    obtain ⟨d, j⟩ := p
    by_cases hv : d < v
    · simp [hv, lookupCat_setEntry_self]
    · simp [hv, h]

theorem lookupCat_updMax_ne (m : ExtMap) (c : Cat) (v : ℚ) (it : Item)
    (c' : Cat) (h : c ≠ c') :
    lookupCat (updMax m c v it) c' = lookupCat m c' := by
  unfold updMax
  cases lookupCat m c with
  | none => exact lookupCat_setEntry_ne _ _ _ _ h
  | some p =>
    obtain ⟨d, j⟩ := p
    by_cases hv : d < v <;> simp [hv, lookupCat_setEntry_ne _ _ _ _ h]

theorem mem_setEntry (m : ExtMap) (c : Cat) (p : ℚ × Item) :
    ∀ e ∈ setEntry m c p, e = (c, p) ∨ e ∈ m := by
  induction m with
  | nil => intro e he; simp [setEntry] at he; simp [he]
  | cons f rest ih =>
    obtain ⟨c2, q⟩ := f
    intro e he
    by_cases h : c2 = c
    · simp [setEntry, h] at he
      rcases he with he | he
      · exact Or.inl (by simp [he])
      · exact Or.inr (by simp [he])
    · simp [setEntry, h] at he
      rcases he with he | he
      · exact Or.inr (by simp [he])
      · rcases ih e he with h1 | h1
        · exact Or.inl h1
        · exact Or.inr (by simp [h1])

theorem mem_updMin (m : ExtMap) (c : Cat) (v : ℚ) (it : Item) :
    ∀ e ∈ updMin m c v it, e = (c, (v, it)) ∨ e ∈ m := by
  unfold updMin
  cases lookupCat m c with
  | none => exact mem_setEntry m c (v, it)
  | some p =>
    obtain ⟨d, j⟩ := p
    by_cases hv : v < d
    · simpa [hv] using mem_setEntry m c (v, it)
    · intro e he; simp [hv] at he; exact Or.inr he

theorem mem_updMax (m : ExtMap) (c : Cat) (v : ℚ) (it : Item) :
    ∀ e ∈ updMax m c v it, e = (c, (v, it)) ∨ e ∈ m := by
  unfold updMax
  cases lookupCat m c with
  | none => exact mem_setEntry m c (v, it)
  | some p =>
    obtain ⟨d, j⟩ := p
    by_cases hv : d < v
    · simpa [hv] using mem_setEntry m c (v, it)
    · intro e he; simp [hv] at he; exact Or.inr he

theorem lookupCat_mem (m : ExtMap) (c : Cat) (p : ℚ × Item)
    (h : lookupCat m c = some p) : (c, p) ∈ m := by
  induction m with
  | nil => simp [lookupCat] at h
  | cons f rest ih =>
    obtain ⟨c2, q⟩ := f
    by_cases h2 : c2 = c
    · subst h2
      simp [lookupCat] at h
      simp [h]
    · simp [lookupCat, h2] at h
      exact List.mem_cons_of_mem _ (ih h)

theorem isSome_lookupCat_of_mem (m : ExtMap) (e : Cat × ℚ × Item)
    (he : e ∈ m) : (lookupCat m e.1).isSome = true := by
  induction m with
  | nil => simp at he
  | cons f rest ih =>
    obtain ⟨c2, q⟩ := f
    rcases List.mem_cons.mp he with h | h
    · subst h; simp [lookupCat]
    · by_cases h2 : c2 = e.1
      · simp [lookupCat, h2]
      · simpa [lookupCat, h2] using ih h

theorem lookupCat_isSome_iff (m : ExtMap) (c : Cat) :
    (lookupCat m c).isSome = true ↔ c ∈ m.map Prod.fst := by
  induction m with
  | nil => simp [lookupCat]
  | cons f rest ih =>
    obtain ⟨c2, q⟩ := f
    by_cases h2 : c2 = c
    · simp [lookupCat, h2]
    · simpa [lookupCat, h2, Ne.symm h2] using ih

theorem keys_setEntry_of_isSome (m : ExtMap) (c : Cat) (p : ℚ × Item)
    (h : (lookupCat m c).isSome = true) :
    (setEntry m c p).map Prod.fst = m.map Prod.fst := by
  induction m with
  | nil => simp [lookupCat] at h
  | cons f rest ih =>
    obtain ⟨c2, q⟩ := f
    by_cases h2 : c2 = c
    · simp [setEntry, h2]
    · simp [lookupCat, h2] at h
      simp [setEntry, h2, ih h]

theorem keys_setEntry_of_none (m : ExtMap) (c : Cat) (p : ℚ × Item)
    (h : lookupCat m c = none) :
    (setEntry m c p).map Prod.fst = m.map Prod.fst ++ [c] := by
  induction m with
  | nil => simp [setEntry]
  | cons f rest ih =>
    obtain ⟨c2, q⟩ := f
    by_cases h2 : c2 = c
    · simp [lookupCat, h2] at h
    · simp [lookupCat, h2] at h
      simp [setEntry, h2, ih h]

theorem keys_nodup_setEntry (m : ExtMap) (c : Cat) (p : ℚ × Item)
    (h : (m.map Prod.fst).Nodup) : ((setEntry m c p).map Prod.fst).Nodup := by
  cases hl : lookupCat m c with
  | none =>
    rw [keys_setEntry_of_none m c p hl]
    refine List.Nodup.append h (List.nodup_singleton c) ?_
    intro a ha hb
    rw [List.mem_singleton] at hb
    subst hb
    have : (lookupCat m a).isSome = true := (lookupCat_isSome_iff m a).mpr ha
    rw [hl] at this
    simp at this
  | some q =>
    rw [keys_setEntry_of_isSome m c p (by simp [hl])]
    exact h

theorem keys_nodup_updMin (m : ExtMap) (c : Cat) (v : ℚ) (it : Item)
    (h : (m.map Prod.fst).Nodup) : ((updMin m c v it).map Prod.fst).Nodup := by
  unfold updMin
  cases lookupCat m c with
  | none => exact keys_nodup_setEntry m c (v, it) h
  | some p =>
    obtain ⟨d, j⟩ := p
    by_cases hv : v < d <;> simp [hv]
    · exact keys_nodup_setEntry m c (v, it) h
    · exact h

theorem keys_nodup_updMax (m : ExtMap) (c : Cat) (v : ℚ) (it : Item)
    (h : (m.map Prod.fst).Nodup) : ((updMax m c v it).map Prod.fst).Nodup := by
  unfold updMax
  cases lookupCat m c with
  | none => exact keys_nodup_setEntry m c (v, it) h
  | some p =>
    obtain ⟨d, j⟩ := p
    by_cases hv : d < v <;> simp [hv]
    · exact keys_nodup_setEntry m c (v, it) h
    · exact h

theorem minAcc_isSome (val : Item → ℚ) (acc : Option (ℚ × Item)) (it : Item) :
    ((minAcc val acc it).isSome) = true := by
  cases acc with
  | none => rfl
  | some p =>
    obtain ⟨d, j⟩ := p
    by_cases hv : val it < d <;> simp [minAcc, hv]

theorem maxAcc_isSome (val : Item → ℚ) (acc : Option (ℚ × Item)) (it : Item) :
    ((maxAcc val acc it).isSome) = true := by
  cases acc with
  | none => rfl
  | some p =>
    obtain ⟨d, j⟩ := p
    by_cases hv : d < val it <;> simp [maxAcc, hv]

theorem minFold_isSome (val : Item → ℚ) :
    ∀ (l : List Item) (p : ℚ × Item),
      ((l.foldl (minAcc val) (some p)).isSome) = true := by
  intro l
  induction l with
  | nil => intro p; rfl
  | cons it l ih =>
    intro p
    rw [List.foldl_cons]
    cases hm : minAcc val (some p) it with
    | none => exact absurd (minAcc_isSome val (some p) it) (by simp [hm])
    | some q => exact ih q

theorem maxFold_isSome (val : Item → ℚ) :
    ∀ (l : List Item) (p : ℚ × Item),
      ((l.foldl (maxAcc val) (some p)).isSome) = true := by
  intro l
  induction l with
  | nil => intro p; rfl
  | cons it l ih =>
    intro p
    rw [List.foldl_cons]
    cases hm : maxAcc val (some p) it with
    | none => exact absurd (maxAcc_isSome val (some p) it) (by simp [hm])
    | some q => exact ih q

theorem minFold_none_iff (val : Item → ℚ) (l : List Item) :
    l.foldl (minAcc val) none = none ↔ l = [] := by
  cases l with
  | nil => simp
  | cons it l =>
    simp only [List.foldl_cons]
    constructor
    · intro h
      have := minFold_isSome val l (val it, it)
      rw [show minAcc val none it = some (val it, it) from rfl] at h
      rw [h] at this
      simp at this
    · intro h; exact absurd h (by simp)

theorem maxFold_none_iff (val : Item → ℚ) (l : List Item) :
    l.foldl (maxAcc val) none = none ↔ l = [] := by
  cases l with
  | nil => simp
  | cons it l =>
    simp only [List.foldl_cons]
    constructor
    · intro h
      have := maxFold_isSome val l (val it, it)
      rw [show maxAcc val none it = some (val it, it) from rfl] at h
      rw [h] at this
      simp at this
    · intro h; exact absurd h (by simp)

theorem minFold_mem (val : Item → ℚ) :
    ∀ (l : List Item) (acc : Option (ℚ × Item)) (v : ℚ) (i : Item),
      l.foldl (minAcc val) acc = some (v, i) →
      acc = some (v, i) ∨ (i ∈ l ∧ val i = v) := by
  intro l
  induction l with
  | nil => intro acc v i h; exact Or.inl h
  | cons it l ih =>
    intro acc v i h
    rw [List.foldl_cons] at h
    rcases ih (minAcc val acc it) v i h with h1 | h1
    · cases acc with
      | none =>
        have h2 : some (val it, it) = some (v, i) := h1
        simp at h2
        obtain ⟨hv2, hi2⟩ := h2
        subst hi2
        exact Or.inr ⟨List.mem_cons_self _ _, hv2⟩
      | some p =>
        obtain ⟨d, j⟩ := p
        by_cases hv : val it < d
        · have h2 : some (val it, it) = some (v, i) := by
            simpa [minAcc, hv] using h1
          simp at h2
          obtain ⟨hv2, hi2⟩ := h2
          subst hi2
          exact Or.inr ⟨List.mem_cons_self _ _, hv2⟩
        · have h2 : some (d, j) = some (v, i) := by
            simpa [minAcc, hv] using h1
          exact Or.inl h2
    · exact Or.inr ⟨List.mem_cons_of_mem _ h1.1, h1.2⟩

theorem maxFold_mem (val : Item → ℚ) :
    ∀ (l : List Item) (acc : Option (ℚ × Item)) (v : ℚ) (i : Item),
      l.foldl (maxAcc val) acc = some (v, i) →
      acc = some (v, i) ∨ (i ∈ l ∧ val i = v) := by
  intro l
  induction l with
  | nil => intro acc v i h; exact Or.inl h
  | cons it l ih =>
    intro acc v i h
    rw [List.foldl_cons] at h
    rcases ih (maxAcc val acc it) v i h with h1 | h1
    · cases acc with
      | none =>
        have h2 : some (val it, it) = some (v, i) := h1
        simp at h2
        obtain ⟨hv2, hi2⟩ := h2
        subst hi2
        exact Or.inr ⟨List.mem_cons_self _ _, hv2⟩
      | some p =>
        obtain ⟨d, j⟩ := p
        by_cases hv : d < val it
        · have h2 : some (val it, it) = some (v, i) := by
            simpa [maxAcc, hv] using h1
          simp at h2
          obtain ⟨hv2, hi2⟩ := h2
          subst hi2
          exact Or.inr ⟨List.mem_cons_self _ _, hv2⟩
        · have h2 : some (d, j) = some (v, i) := by
            simpa [maxAcc, hv] using h1
          exact Or.inl h2
    · exact Or.inr ⟨List.mem_cons_of_mem _ h1.1, h1.2⟩

theorem minFold_le_init (val : Item → ℚ) :
    ∀ (l : List Item) (d : ℚ) (j : Item) (v : ℚ) (i : Item),
      l.foldl (minAcc val) (some (d, j)) = some (v, i) → v ≤ d := by
  intro l
  induction l with
  | nil =>
    intro d j v i h
    simp at h
    exact le_of_eq h.1.symm
  | cons it l ih =>
    intro d j v i h
    rw [List.foldl_cons] at h
    by_cases hv : val it < d
    · rw [show minAcc val (some (d, j)) it = some (val it, it) from by
        simp [minAcc, hv]] at h
      exact le_trans (ih _ _ _ _ h) (le_of_lt hv)
    · rw [show minAcc val (some (d, j)) it = some (d, j) from by
        simp [minAcc, hv]] at h
      exact ih _ _ _ _ h

theorem maxFold_ge_init (val : Item → ℚ) :
    ∀ (l : List Item) (d : ℚ) (j : Item) (v : ℚ) (i : Item),
      l.foldl (maxAcc val) (some (d, j)) = some (v, i) → d ≤ v := by
  intro l
  induction l with
  | nil =>
    intro d j v i h
    simp at h
    exact le_of_eq h.1
  | cons it l ih =>
    intro d j v i h
    rw [List.foldl_cons] at h
    by_cases hv : d < val it
    · rw [show maxAcc val (some (d, j)) it = some (val it, it) from by
        simp [maxAcc, hv]] at h
      exact le_trans (le_of_lt hv) (ih _ _ _ _ h)
    · rw [show maxAcc val (some (d, j)) it = some (d, j) from by
        simp [maxAcc, hv]] at h
      exact ih _ _ _ _ h

theorem minFold_lb (val : Item → ℚ) :
    ∀ (l : List Item) (acc : Option (ℚ × Item)) (v : ℚ) (i : Item),
      l.foldl (minAcc val) acc = some (v, i) → ∀ j ∈ l, v ≤ val j := by
  intro l
  induction l with
  | nil => intro acc v i _ j hj; simp at hj
  | cons it l ih =>
    intro acc v i h j hj
    rw [List.foldl_cons] at h
    rcases List.mem_cons.mp hj with hj | hj
    · subst hj
      cases acc with
      | none =>
        exact minFold_le_init val l _ _ _ _ h
      | some p =>
        obtain ⟨d, k⟩ := p
        by_cases hv : val j < d
        · rw [show minAcc val (some (d, k)) j = some (val j, j) from by
            simp [minAcc, hv]] at h
          exact minFold_le_init val l _ _ _ _ h
        · rw [show minAcc val (some (d, k)) j = some (d, k) from by
            simp [minAcc, hv]] at h
          exact le_trans (minFold_le_init val l _ _ _ _ h) (le_of_not_lt hv)
    · exact ih (minAcc val acc it) v i h j hj

theorem maxFold_ub (val : Item → ℚ) :
    ∀ (l : List Item) (acc : Option (ℚ × Item)) (v : ℚ) (i : Item),
      l.foldl (maxAcc val) acc = some (v, i) → ∀ j ∈ l, val j ≤ v := by
  intro l
  induction l with
  | nil => intro acc v i _ j hj; simp at hj
  | cons it l ih =>
    intro acc v i h j hj
    rw [List.foldl_cons] at h
    rcases List.mem_cons.mp hj with hj | hj
    · subst hj
      cases acc with
      | none =>
        exact maxFold_ge_init val l _ _ _ _ h
      | some p =>
        obtain ⟨d, k⟩ := p
        by_cases hv : d < val j
        · rw [show maxAcc val (some (d, k)) j = some (val j, j) from by
            simp [maxAcc, hv]] at h
          exact maxFold_ge_init val l _ _ _ _ h
        · rw [show maxAcc val (some (d, k)) j = some (d, k) from by
            simp [maxAcc, hv]] at h
          exact le_trans (le_of_not_lt hv) (maxFold_ge_init val l _ _ _ _ h)
    · exact ih (maxAcc val acc it) v i h j hj

theorem minFold_earliest_seeded (val : Item → ℚ) :
    ∀ (l : List Item) (d : ℚ) (j : Item) (v : ℚ) (i : Item),
      l.foldl (minAcc val) (some (d, j)) = some (v, i) →
      (v = d ∧ i = j) ∨
        (v < d ∧ l.find? (fun k => decide (val k = v)) = some i) := by
  intro l
  induction l with
  | nil =>
    intro d j v i h
    simp at h
    exact Or.inl ⟨h.1.symm, h.2.symm⟩
  | cons it l ih =>
    intro d j v i h
    rw [List.foldl_cons] at h
    by_cases hv : val it < d
    · rw [show minAcc val (some (d, j)) it = some (val it, it) from by
        simp [minAcc, hv]] at h
      rcases ih _ _ _ _ h with ⟨h1, h2⟩ | ⟨h1, h2⟩
      · subst h2
        refine Or.inr ⟨by rw [h1]; exact hv, ?_⟩
        rw [List.find?_cons_of_pos _ (by simp [h1])]
      · refine Or.inr ⟨lt_trans h1 hv, ?_⟩
        rw [List.find?_cons_of_neg _ (by simp; exact fun he => absurd he.symm (ne_of_lt h1)), h2]
    · rw [show minAcc val (some (d, j)) it = some (d, j) from by
        simp [minAcc, hv]] at h
      rcases ih _ _ _ _ h with ⟨h1, h2⟩ | ⟨h1, h2⟩
      · exact Or.inl ⟨h1, h2⟩
      · refine Or.inr ⟨h1, ?_⟩
        have hne : val it ≠ v := by
          intro he
          exact absurd (lt_of_lt_of_le h1 (le_of_not_lt hv)) (by rw [he]; exact lt_irrefl v)
        rw [List.find?_cons_of_neg _ (by simp [hne]), h2]

theorem maxFold_earliest_seeded (val : Item → ℚ) :
    ∀ (l : List Item) (d : ℚ) (j : Item) (v : ℚ) (i : Item),
      l.foldl (maxAcc val) (some (d, j)) = some (v, i) →
      (v = d ∧ i = j) ∨
        (d < v ∧ l.find? (fun k => decide (val k = v)) = some i) := by
  intro l
  induction l with
  | nil =>
    intro d j v i h
    simp at h
    exact Or.inl ⟨h.1.symm, h.2.symm⟩
  | cons it l ih =>
    intro d j v i h
    rw [List.foldl_cons] at h
    by_cases hv : d < val it
    · rw [show maxAcc val (some (d, j)) it = some (val it, it) from by
        simp [maxAcc, hv]] at h
      rcases ih _ _ _ _ h with ⟨h1, h2⟩ | ⟨h1, h2⟩
      · subst h2
        refine Or.inr ⟨by rw [h1]; exact hv, ?_⟩
        rw [List.find?_cons_of_pos _ (by simp [h1])]
      · refine Or.inr ⟨lt_trans hv h1, ?_⟩
        rw [List.find?_cons_of_neg _ (by simp; exact fun he => absurd he (ne_of_lt h1)), h2]
    · rw [show maxAcc val (some (d, j)) it = some (d, j) from by
        simp [maxAcc, hv]] at h
      rcases ih _ _ _ _ h with ⟨h1, h2⟩ | ⟨h1, h2⟩
      · exact Or.inl ⟨h1, h2⟩
      · refine Or.inr ⟨h1, ?_⟩
        have hne : val it ≠ v := by
          intro he
          exact absurd (lt_of_le_of_lt (le_of_not_lt hv) h1) (by rw [he]; exact lt_irrefl v)
        rw [List.find?_cons_of_neg _ (by simp [hne]), h2]

theorem minFold_earliest (val : Item → ℚ) (l : List Item) (v : ℚ) (i : Item)
    (h : l.foldl (minAcc val) none = some (v, i)) :
    l.find? (fun k => decide (val k = v)) = some i := by
  cases l with
  | nil => simp at h
  | cons it l =>
    rw [List.foldl_cons, show minAcc val none it = some (val it, it) from rfl] at h
    rcases minFold_earliest_seeded val l _ _ _ _ h with ⟨h1, h2⟩ | ⟨h1, h2⟩
    · subst h2
      rw [List.find?_cons_of_pos _ (by simp [h1])]
    · rw [List.find?_cons_of_neg _ (by simp; exact fun he => absurd he.symm (ne_of_lt h1)), h2]

theorem maxFold_earliest (val : Item → ℚ) (l : List Item) (v : ℚ) (i : Item)
    (h : l.foldl (maxAcc val) none = some (v, i)) :
    l.find? (fun k => decide (val k = v)) = some i := by
  cases l with
  | nil => simp at h
  | cons it l =>
    rw [List.foldl_cons, show maxAcc val none it = some (val it, it) from rfl] at h
    rcases maxFold_earliest_seeded val l _ _ _ _ h with ⟨h1, h2⟩ | ⟨h1, h2⟩
    · subst h2
      rw [List.find?_cons_of_pos _ (by simp [h1])]
    · rw [List.find?_cons_of_neg _ (by simp; exact fun he => absurd he (ne_of_lt h1)), h2]

/-! ### Projections of one aggregation step -/

theorem aggStep_totSelf (inst : Instance) (sb : List Item) (P : Agent)
    (s : AggState) (item : Item) :
    (aggStep inst sb P s item).totSelf =
      if item ∈ sb then s.totSelf + inst.agent_item_value P item
      else s.totSelf := by
  by_cases h1 : inst.agent_item_value P item < 0 ∧ item ∈ sb
  · simp [aggStep, h1]
  · by_cases h2 : inst.agent_item_value P item > 0 ∧ item ∉ sb
    · simp [aggStep, h1, h2]
    · simp [aggStep, h1, h2]

theorem aggStep_totOther (inst : Instance) (sb : List Item) (P : Agent)
    (s : AggState) (item : Item) :
    (aggStep inst sb P s item).totOther =
      if item ∈ sb then s.totOther
      else s.totOther + inst.agent_item_value P item := by
  by_cases h1 : inst.agent_item_value P item < 0 ∧ item ∈ sb
  · simp [aggStep, h1]
  · by_cases h2 : inst.agent_item_value P item > 0 ∧ item ∉ sb
    · simp [aggStep, h1, h2]
    · simp [aggStep, h1, h2]

theorem aggStep_wostChore (inst : Instance) (sb : List Item) (P : Agent)
    (s : AggState) (item : Item) :
    (aggStep inst sb P s item).wostChore =
      if inst.agent_item_value P item < 0 ∧ item ∈ sb then
        updMin s.wostChore (inst.cat_of item) (inst.agent_item_value P item)
          item
      else s.wostChore := by
  by_cases h1 : inst.agent_item_value P item < 0 ∧ item ∈ sb
  · simp [aggStep, h1]
  · by_cases h2 : inst.agent_item_value P item > 0 ∧ item ∉ sb
    · simp [aggStep, h1, h2]
    · simp [aggStep, h1, h2]

theorem aggStep_bestGood (inst : Instance) (sb : List Item) (P : Agent)
    (s : AggState) (item : Item) :
    (aggStep inst sb P s item).bestGood =
      if inst.agent_item_value P item > 0 ∧ item ∉ sb then
        updMax s.bestGood (inst.cat_of item) (inst.agent_item_value P item)
          item
      else s.bestGood := by
  by_cases h1 : inst.agent_item_value P item < 0 ∧ item ∈ sb
  · have h2 : ¬(inst.agent_item_value P item > 0 ∧ item ∉ sb) :=
      fun h => h.2 h1.2
    simp [aggStep, h1, h2]
  · by_cases h2 : inst.agent_item_value P item > 0 ∧ item ∉ sb
    · simp [aggStep, h1, h2]
    · simp [aggStep, h1, h2]

/-! ### Fold characterizations of the aggregation pass -/

theorem foldl_totSelf (inst : Instance) (sb : List Item) (P : Agent) :
    ∀ (l : List Item) (s : AggState),
      (l.foldl (aggStep inst sb P) s).totSelf =
        s.totSelf +
          ((l.filter (fun i => decide (i ∈ sb))).map
            (inst.agent_item_value P)).sum := by
  intro l
  induction l with
  | nil => intro s; simp
  | cons it l ih =>
    intro s
    rw [List.foldl_cons, ih]
    by_cases h : it ∈ sb
    · rw [List.filter_cons_of_pos (by simpa using h), List.map_cons,
        List.sum_cons, aggStep_totSelf, if_pos h]
      ring
    · rw [List.filter_cons_of_neg (by simpa using h), aggStep_totSelf,
        if_neg h]

theorem foldl_totOther (inst : Instance) (sb : List Item) (P : Agent) :
    ∀ (l : List Item) (s : AggState),
      (l.foldl (aggStep inst sb P) s).totOther =
        s.totOther +
          ((l.filter (fun i => decide (i ∉ sb))).map
            (inst.agent_item_value P)).sum := by
  intro l
  induction l with
  | nil => intro s; simp
  | cons it l ih =>
    intro s
    rw [List.foldl_cons, ih]
    by_cases h : it ∈ sb
    · rw [List.filter_cons_of_neg (by simpa using h), aggStep_totOther,
        if_pos h]
    · rw [List.filter_cons_of_pos (by simpa using h), List.map_cons,
        List.sum_cons, aggStep_totOther, if_neg h]
      ring

theorem foldl_wostChore_lookup (inst : Instance) (sb : List Item) (P : Agent)
    (c : Cat) :
    ∀ (l : List Item) (s : AggState),
      lookupCat ((l.foldl (aggStep inst sb P) s).wostChore) c =
        (l.filter (fun i =>
            decide (i ∈ sb) && decide (inst.agent_item_value P i < 0) &&
              decide (inst.cat_of i = c))).foldl
          (minAcc (inst.agent_item_value P)) (lookupCat s.wostChore c) := by
  intro l
  induction l with
  | nil => intro s; rfl
  | cons it l ih =>
    intro s
    rw [List.foldl_cons, ih]
    by_cases h1 : inst.agent_item_value P it < 0 ∧ it ∈ sb
    · by_cases h2 : inst.cat_of it = c
      · rw [List.filter_cons_of_pos (by simp [h1.1, h1.2, h2]),
          List.foldl_cons]
        congr 1
        rw [aggStep_wostChore, if_pos h1, h2, lookupCat_updMin_self]
        cases lookupCat s.wostChore c with
        | none => rfl
        | some p => obtain ⟨d, j⟩ := p; rfl
      · rw [List.filter_cons_of_neg (by simp [h2])]
        congr 1
        rw [aggStep_wostChore, if_pos h1]
        exact lookupCat_updMin_ne _ _ _ _ _ h2
    · rw [List.filter_cons_of_neg ?hneg]
      case hneg =>
        by_cases hm : it ∈ sb
        · simp [show ¬inst.agent_item_value P it < 0 from
            fun hA => h1 ⟨hA, hm⟩]
        · simp [hm]
      congr 1
      rw [aggStep_wostChore, if_neg h1]

theorem foldl_bestGood_lookup (inst : Instance) (sb : List Item) (P : Agent)
    (c : Cat) :
    ∀ (l : List Item) (s : AggState),
      lookupCat ((l.foldl (aggStep inst sb P) s).bestGood) c =
        (l.filter (fun i =>
            decide (i ∉ sb) && decide (inst.agent_item_value P i > 0) &&
              decide (inst.cat_of i = c))).foldl
          (maxAcc (inst.agent_item_value P)) (lookupCat s.bestGood c) := by
  intro l
  induction l with
  | nil => intro s; rfl
  | cons it l ih =>
    intro s
    rw [List.foldl_cons, ih]
    by_cases h1 : inst.agent_item_value P it > 0 ∧ it ∉ sb
    · by_cases h2 : inst.cat_of it = c
      · rw [List.filter_cons_of_pos (by simp [h1.1, h1.2, h2]),
          List.foldl_cons]
        congr 1
        rw [aggStep_bestGood, if_pos h1, h2, lookupCat_updMax_self]
        cases lookupCat s.bestGood c with
        | none => rfl
        | some p => obtain ⟨d, j⟩ := p; rfl
      · rw [List.filter_cons_of_neg (by simp [h2])]
        congr 1
        rw [aggStep_bestGood, if_pos h1]
        exact lookupCat_updMax_ne _ _ _ _ _ h2
    · rw [List.filter_cons_of_neg ?hneg]
      case hneg =>
        by_cases hm : it ∈ sb
        · simp [hm]
        · simp [hm, show ¬inst.agent_item_value P it > 0 from
            fun hA => h1 ⟨hA, hm⟩]
      congr 1
      rw [aggStep_bestGood, if_neg h1]

/-! ### Aggregate-level corollaries -/

theorem aggregate_totSelf (inst : Instance) (bs : Bundles) (P : Agent) :
    (aggregate inst bs P).totSelf =
      (((allItems bs).filter (fun i => decide (i ∈ bundleOf bs P))).map
        (inst.agent_item_value P)).sum := by
  unfold aggregate
  rw [foldl_totSelf]
  simp

theorem aggregate_totOther (inst : Instance) (bs : Bundles) (P : Agent) :
    (aggregate inst bs P).totOther =
      (((allItems bs).filter (fun i => decide (i ∉ bundleOf bs P))).map
        (inst.agent_item_value P)).sum := by
  unfold aggregate
  rw [foldl_totOther]
  simp

theorem aggregate_wostChore_lookup (inst : Instance) (bs : Bundles)
    (P : Agent) (c : Cat) :
    lookupCat (aggregate inst bs P).wostChore c =
      (choreQual inst bs P c).foldl (minAcc (inst.agent_item_value P))
        none := by
  unfold aggregate choreQual
  rw [foldl_wostChore_lookup]
  rfl

theorem aggregate_bestGood_lookup (inst : Instance) (bs : Bundles)
    (P : Agent) (c : Cat) :
    lookupCat (aggregate inst bs P).bestGood c =
      (goodQual inst bs P c).foldl (maxAcc (inst.agent_item_value P))
        none := by
  unfold aggregate goodQual
  rw [foldl_bestGood_lookup]
  rfl

/-- What a stored worst-chore entry is: a qualifying item, carrying its own
value, minimal among all qualifying values, and the earliest qualifying item
attaining that value in traversal order (later items replace it only when
strictly lower). -/
theorem wostChore_char (inst : Instance) (bs : Bundles) (P : Agent) (c : Cat)
    (v : ℚ) (i : Item)
    (h : lookupCat (aggregate inst bs P).wostChore c = some (v, i)) :
    i ∈ choreQual inst bs P c ∧ inst.agent_item_value P i = v ∧
      (∀ j ∈ choreQual inst bs P c, v ≤ inst.agent_item_value P j) ∧
      (choreQual inst bs P c).find?
        (fun k => decide (inst.agent_item_value P k = v)) = some i := by
  rw [aggregate_wostChore_lookup] at h
  have hmem := minFold_mem (inst.agent_item_value P) _ _ _ _ h
  simp only [false_or, reduceCtorEq] at hmem
  exact ⟨hmem.1, hmem.2, minFold_lb _ _ _ _ _ h,
    minFold_earliest _ _ _ _ h⟩

/-- Dual characterization of a stored best-good entry. -/
theorem bestGood_char (inst : Instance) (bs : Bundles) (P : Agent) (c : Cat)
    (v : ℚ) (i : Item)
    (h : lookupCat (aggregate inst bs P).bestGood c = some (v, i)) :
    i ∈ goodQual inst bs P c ∧ inst.agent_item_value P i = v ∧
      (∀ j ∈ goodQual inst bs P c, inst.agent_item_value P j ≤ v) ∧
      (goodQual inst bs P c).find?
        (fun k => decide (inst.agent_item_value P k = v)) = some i := by
  rw [aggregate_bestGood_lookup] at h
  have hmem := maxFold_mem (inst.agent_item_value P) _ _ _ _ h
  simp only [false_or, reduceCtorEq] at hmem
  exact ⟨hmem.1, hmem.2, maxFold_ub _ _ _ _ _ h,
    maxFold_earliest _ _ _ _ h⟩

theorem mem_choreQual (inst : Instance) (bs : Bundles) (P : Agent) (c : Cat)
    (i : Item) :
    i ∈ choreQual inst bs P c ↔
      i ∈ allItems bs ∧ i ∈ bundleOf bs P ∧
        inst.agent_item_value P i < 0 ∧ inst.cat_of i = c := by
  unfold choreQual
  simp [List.mem_filter, and_assoc]

theorem mem_goodQual (inst : Instance) (bs : Bundles) (P : Agent) (c : Cat)
    (i : Item) :
    i ∈ goodQual inst bs P c ↔
      i ∈ allItems bs ∧ i ∉ bundleOf bs P ∧
        inst.agent_item_value P i > 0 ∧ inst.cat_of i = c := by
  unfold goodQual
  simp [List.mem_filter, and_assoc]

/-- The worst-chore map has an entry for a category exactly when some
qualifying chore exists for it. -/
theorem wostChore_isSome_iff (inst : Instance) (bs : Bundles) (P : Agent)
    (c : Cat) :
    (lookupCat (aggregate inst bs P).wostChore c).isSome = true ↔
      choreQual inst bs P c ≠ [] := by
  rw [aggregate_wostChore_lookup]
  cases hq : choreQual inst bs P c with
  | nil => simp
  | cons it l =>
    simp only [List.foldl_cons, ne_eq, reduceCtorEq, not_false_iff,
      iff_true]
    rw [show minAcc (inst.agent_item_value P) none it =
      some (inst.agent_item_value P it, it) from rfl]
    exact minFold_isSome _ _ _

theorem bestGood_isSome_iff (inst : Instance) (bs : Bundles) (P : Agent)
    (c : Cat) :
    (lookupCat (aggregate inst bs P).bestGood c).isSome = true ↔
      goodQual inst bs P c ≠ [] := by
  rw [aggregate_bestGood_lookup]
  cases hq : goodQual inst bs P c with
  | nil => simp
  | cons it l =>
    simp only [List.foldl_cons, ne_eq, reduceCtorEq, not_false_iff,
      iff_true]
    rw [show maxAcc (inst.agent_item_value P) none it =
      some (inst.agent_item_value P it, it) from rfl]
    exact maxFold_isSome _ _ _

/-- Every value stored in the worst-chore map is negative. -/
theorem wostChore_entries_neg (inst : Instance) (bs : Bundles) (P : Agent) :
    ∀ e ∈ (aggregate inst bs P).wostChore, e.2.1 < 0 := by
  unfold aggregate
  generalize hs : (⟨0, 0, [], []⟩ : AggState) = s
  have hbase : ∀ e ∈ s.wostChore, e.2.1 < 0 := by
    rw [← hs]; intro e he; simp at he
  clear hs
  induction allItems bs generalizing s with
  | nil => exact hbase
  | cons it l ih =>
    rw [List.foldl_cons]
    refine ih _ ?_
    intro e he
    rw [aggStep_wostChore] at he
    by_cases h1 : inst.agent_item_value P it < 0 ∧ it ∈ bundleOf bs P
    · rw [if_pos h1] at he
      rcases mem_updMin _ _ _ _ e he with h | h
      · rw [h]; exact h1.1
      · exact hbase e h
    · rw [if_neg h1] at he
      exact hbase e he

/-- Every value stored in the best-good map is positive. -/
theorem bestGood_entries_pos (inst : Instance) (bs : Bundles) (P : Agent) :
    ∀ e ∈ (aggregate inst bs P).bestGood, e.2.1 > 0 := by
  unfold aggregate
  generalize hs : (⟨0, 0, [], []⟩ : AggState) = s
  have hbase : ∀ e ∈ s.bestGood, e.2.1 > 0 := by
    rw [← hs]; intro e he; simp at he
  clear hs
  induction allItems bs generalizing s with
  | nil => exact hbase
  | cons it l ih =>
    rw [List.foldl_cons]
    refine ih _ ?_
    intro e he
    rw [aggStep_bestGood] at he
    by_cases h1 : inst.agent_item_value P it > 0 ∧ it ∉ bundleOf bs P
    · rw [if_pos h1] at he
      rcases mem_updMax _ _ _ _ e he with h | h
      · rw [h]; exact h1.1
      · exact hbase e h
    · rw [if_neg h1] at he
      exact hbase e he

/-- The keys of the worst-chore map are distinct (it is a dict). -/
theorem wostChore_keys_nodup (inst : Instance) (bs : Bundles) (P : Agent) :
    ((aggregate inst bs P).wostChore.map Prod.fst).Nodup := by
  unfold aggregate
  generalize hs : (⟨0, 0, [], []⟩ : AggState) = s
  have hbase : (s.wostChore.map Prod.fst).Nodup := by
    rw [← hs]; simp
  clear hs
  induction allItems bs generalizing s with
  | nil => exact hbase
  | cons it l ih =>
    rw [List.foldl_cons]
    refine ih _ ?_
    rw [aggStep_wostChore]
    by_cases h1 : inst.agent_item_value P it < 0 ∧ it ∈ bundleOf bs P
    · rw [if_pos h1]
      exact keys_nodup_updMin _ _ _ _ hbase
    · rw [if_neg h1]
      exact hbase

theorem bestGood_keys_nodup (inst : Instance) (bs : Bundles) (P : Agent) :
    ((aggregate inst bs P).bestGood.map Prod.fst).Nodup := by
  unfold aggregate
  generalize hs : (⟨0, 0, [], []⟩ : AggState) = s
  have hbase : (s.bestGood.map Prod.fst).Nodup := by
    rw [← hs]; simp
  clear hs
  induction allItems bs generalizing s with
  | nil => exact hbase
  | cons it l ih =>
    rw [List.foldl_cons]
    refine ih _ ?_
    rw [aggStep_bestGood]
    by_cases h1 : inst.agent_item_value P it > 0 ∧ it ∉ bundleOf bs P
    · rw [if_pos h1]
      exact keys_nodup_updMax _ _ _ _ hbase
    · rw [if_neg h1]
      exact hbase

/-! ### Swap-candidate list lemmas -/

theorem mem_mkCandidates (needed : ℚ) (chore good : ExtMap)
    (cd : SwapCandidate) (h : cd ∈ mkCandidates needed chore good) :
    ∃ e ∈ chore, ∃ gv gi, lookupCat good e.1 = some (gv, gi) ∧
      cd = ⟨e.1, e.2.2, gi, e.2.1, gv, -e.2.1 + gv,
        decide (-e.2.1 + gv ≥ needed)⟩ := by
  unfold mkCandidates at h
  rw [List.mem_filterMap] at h
  obtain ⟨e, he, hf⟩ := h
  refine ⟨e, he, ?_⟩
  cases hg : lookupCat good e.1 with
  | none => rw [hg] at hf; simp at hf
  | some p =>
    obtain ⟨gv, gi⟩ := p
    rw [hg] at hf
    simp only [Option.some.injEq] at hf
    exact ⟨gv, gi, rfl, hf.symm⟩

theorem mkCandidates_countP (needed : ℚ) (good : ExtMap) (c : Cat) :
    ∀ chore : ExtMap, (chore.map Prod.fst).Nodup →
      (mkCandidates needed chore good).countP
          (fun cd => decide (cd.category = c)) =
        if (lookupCat chore c).isSome ∧ (lookupCat good c).isSome then 1
        else 0 := by
  intro chore
  induction chore with
  | nil => intro _; simp [mkCandidates, lookupCat]
  | cons e rest ih =>
    intro hnd
    obtain ⟨c2, cv, ci⟩ := e
    have hnd2 : (rest.map Prod.fst).Nodup := (List.nodup_cons.mp hnd).2
    have hc2 : c2 ∉ rest.map Prod.fst := (List.nodup_cons.mp hnd).1
    unfold mkCandidates
    rw [List.filterMap_cons]
    by_cases hg : ∃ p, lookupCat good c2 = some p
    · obtain ⟨⟨gv, gi⟩, hg⟩ := hg
      simp only [hg]
      rw [List.countP_cons]
      have hrest := ih hnd2
      unfold mkCandidates at hrest
      rw [hrest]
      by_cases hc : c2 = c
      · subst hc
        have hnone : lookupCat rest c2 = none := by
          cases hl : lookupCat rest c2 with
          | none => rfl
          | some q =>
            exact absurd ((lookupCat_isSome_iff rest c2).mp (by simp [hl]))
              hc2
        simp [lookupCat, hnone, hg]
      · simp only [lookupCat, if_neg hc]
        have : (decide ((⟨c2, ci, gi, cv, gv, -cv + gv,
            decide (-cv + gv ≥ needed)⟩ : SwapCandidate).category = c)) =
            false := by simp [hc]
        rw [this]
        simp
    · have hgn : lookupCat good c2 = none := by
        cases hl : lookupCat good c2 with
        | none => rfl
        | some q => exact absurd ⟨q, hl⟩ hg
      simp only [hgn]
      have hrest := ih hnd2
      unfold mkCandidates at hrest
      rw [hrest]
      by_cases hc : c2 = c
      · subst hc
        simp [lookupCat, hgn]
      · simp [lookupCat, if_neg hc]

theorem mkCandidates_eq_nil (needed : ℚ) (chore good : ExtMap)
    (h : ∀ c, (lookupCat chore c).isSome = true →
      (lookupCat good c).isSome = true → False) :
    mkCandidates needed chore good = [] := by
  unfold mkCandidates
  rw [List.filterMap_eq_nil_iff]
  intro e he
  cases hg : lookupCat good e.1 with
  | none => rfl
  | some p =>
    exact absurd
      (h e.1 (isSome_lookupCat_of_mem chore e he) (by simp [hg])) not_false

/-- Every recorded candidate has a negative chore value, a positive good
value, gain equal to good minus chore, and the recorded elimination flag. -/
theorem swapListOf_fields (inst : Instance) (bs : Bundles) (P : Agent)
    (cd : SwapCandidate) (h : cd ∈ swapListOf inst bs P) :
    cd.good_value > 0 ∧ cd.chore_value < 0 ∧
      cd.total_gain = cd.good_value - cd.chore_value ∧ cd.total_gain > 0 ∧
      cd.eliminates_envy =
        decide (cd.total_gain ≥ -(gapOf inst bs P)) := by
  unfold swapListOf at h
  by_cases hg : gapOf inst bs P < 0
  · rw [if_pos hg] at h
    obtain ⟨e, he, gv, gi, hlk, hcd⟩ := mem_mkCandidates _ _ _ _ h
    have hneg : e.2.1 < 0 :=
      wostChore_entries_neg inst bs P e he
    have hpos : gv > 0 :=
      bestGood_entries_pos inst bs P (e.1, gv, gi) (lookupCat_mem _ _ _ hlk)
    subst hcd
    refine ⟨hpos, hneg, by ring, ?_, rfl⟩
    have : e.2.1 < gv := lt_trans hneg hpos
    simp only []
    linarith
  · rw [if_neg hg] at h
    simp at h

/-! ### Resolver-level lemmas -/

theorem resolve_agents (inst : Instance) (bs : Bundles) (A B : Agent) :
    (resolve inst bs A B).agentA = A ∧ (resolve inst bs A B).agentB = B := by
  unfold resolve
  by_cases h1 : dirFails inst bs A = true
  · simp [h1]
  · by_cases h2 : dirFails inst bs B = true <;>
      simp [h1, h2]

theorem resolve_bundle_values (inst : Instance) (bs : Bundles) (A B : Agent) :
    (resolve inst bs A B).bundle_valuesA = bvOf inst bs A ∧
      (resolve inst bs A B).bundle_valuesB = bvOf inst bs B := by
  unfold resolve
  by_cases h1 : dirFails inst bs A = true
  · simp [h1]
  · by_cases h2 : dirFails inst bs B = true <;>
      simp [h1, h2]

theorem resolve_swap_pairsA (inst : Instance) (bs : Bundles) (A B : Agent) :
    (resolve inst bs A B).swap_pairsA = swapListOf inst bs A := by
  unfold resolve
  by_cases h1 : dirFails inst bs A = true
  · simp [h1]
  · by_cases h2 : dirFails inst bs B = true <;>
      simp [h1, h2]

theorem resolve_swap_pairsB_sub (inst : Instance) (bs : Bundles)
    (A B : Agent) (cd : SwapCandidate)
    (h : cd ∈ (resolve inst bs A B).swap_pairsB) :
    cd ∈ swapListOf inst bs B := by
  unfold resolve at h
  by_cases h1 : dirFails inst bs A = true
  · simp [h1] at h
  · by_cases h2 : dirFails inst bs B = true <;> simpa [h1, h2] using h

theorem resolve_swap_pairsB_of_ok (inst : Instance) (bs : Bundles)
    (A B : Agent) (h1 : ¬dirFails inst bs A = true) :
    (resolve inst bs A B).swap_pairsB = swapListOf inst bs B := by
  unfold resolve
  by_cases h2 : dirFails inst bs B = true <;> simp [h1, h2]

theorem resolve_failA (inst : Instance) (bs : Bundles) (A B : Agent)
    (h1 : dirFails inst bs A = true) :
    resolve inst bs A B =
      ⟨A, B, false, some (A, B), swapListOf inst bs A, [],
        bvOf inst bs A, bvOf inst bs B⟩ := by
  unfold resolve
  simp [h1]

theorem resolve_failB (inst : Instance) (bs : Bundles) (A B : Agent)
    (h1 : ¬dirFails inst bs A = true) (h2 : dirFails inst bs B = true) :
    resolve inst bs A B =
      ⟨A, B, false, some (B, A), swapListOf inst bs A,
        swapListOf inst bs B, bvOf inst bs A, bvOf inst bs B⟩ := by
  unfold resolve
  simp [h1, h2]

theorem resolve_ok (inst : Instance) (bs : Bundles) (A B : Agent)
    (h1 : ¬dirFails inst bs A = true) (h2 : ¬dirFails inst bs B = true) :
    resolve inst bs A B =
      ⟨A, B, true, none, swapListOf inst bs A, swapListOf inst bs B,
        bvOf inst bs A, bvOf inst bs B⟩ := by
  unfold resolve
  simp [h1, h2]

theorem resolve_violating_pair_cases (inst : Instance) (bs : Bundles)
    (A B : Agent) :
    (resolve inst bs A B).violating_pair = none ∨
      (resolve inst bs A B).violating_pair = some (A, B) ∨
      (resolve inst bs A B).violating_pair = some (B, A) := by
  by_cases h1 : dirFails inst bs A = true
  · rw [resolve_failA inst bs A B h1]; right; left; rfl
  · by_cases h2 : dirFails inst bs B = true
    · rw [resolve_failB inst bs A B h1 h2]; right; right; rfl
    · rw [resolve_ok inst bs A B h1 h2]; left; rfl

theorem is_EF11_cons (inst : Instance) (A B : Agent) (lA lB : List Item)
    (rest : Bundles) :
    is_EF11 inst ((A, lA) :: (B, lB) :: rest) =
      some (resolve inst ((A, lA) :: (B, lB) :: rest) A B) := rfl

/-- The gap recorded in the verdict is the gap of the aggregation pass. -/
theorem bvOf_gap (inst : Instance) (bs : Bundles) (P : Agent) :
    (bvOf inst bs P).gap = gapOf inst bs P := rfl

/-! ### Two-agent localization -/

theorem allItems_pair (A B : Agent) (lA lB : List Item) :
    allItems [(A, lA), (B, lB)] = lA ++ lB := by
  simp [allItems]

theorem bundleOf_pair_left (A B : Agent) (lA lB : List Item) :
    bundleOf [(A, lA), (B, lB)] A = lA := by
  simp [bundleOf]

theorem bundleOf_pair_right (A B : Agent) (lA lB : List Item) (h : A ≠ B) :
    bundleOf [(A, lA), (B, lB)] B = lB := by
  simp [bundleOf, h]

theorem choreQual_pair_left (inst : Instance) (A B : Agent)
    (lA lB : List Item) (c : Cat) (hdisj : ∀ i ∈ lA, i ∉ lB) :
    choreQual inst [(A, lA), (B, lB)] A c =
      lA.filter (fun i =>
        decide (inst.agent_item_value A i < 0) &&
          decide (inst.cat_of i = c)) := by
  unfold choreQual
  rw [allItems_pair, bundleOf_pair_left, List.filter_append]
  have h2 : lB.filter (fun i =>
      decide (i ∈ lA) && decide (inst.agent_item_value A i < 0) &&
        decide (inst.cat_of i = c)) = [] := by
    rw [List.filter_eq_nil_iff]
    intro i hi
    have : i ∉ lA := fun hA => hdisj i hA hi
    simp [this]
  rw [h2, List.append_nil]
  apply List.filter_congr
  intro i hi
  simp [hi]

theorem choreQual_pair_right (inst : Instance) (A B : Agent)
    (lA lB : List Item) (c : Cat) (hAB : A ≠ B)
    (hdisj : ∀ i ∈ lA, i ∉ lB) :
    choreQual inst [(A, lA), (B, lB)] B c =
      lB.filter (fun i =>
        decide (inst.agent_item_value B i < 0) &&
          decide (inst.cat_of i = c)) := by
  unfold choreQual
  rw [allItems_pair, bundleOf_pair_right A B lA lB hAB, List.filter_append]
  have h2 : lA.filter (fun i =>
      decide (i ∈ lB) && decide (inst.agent_item_value B i < 0) &&
        decide (inst.cat_of i = c)) = [] := by
    rw [List.filter_eq_nil_iff]
    intro i hi
    simp [hdisj i hi]
  rw [h2, List.nil_append]
  apply List.filter_congr
  intro i hi
  simp [hi]

theorem goodQual_pair_left (inst : Instance) (A B : Agent)
    (lA lB : List Item) (c : Cat) (hdisj : ∀ i ∈ lA, i ∉ lB) :
    goodQual inst [(A, lA), (B, lB)] A c =
      lB.filter (fun i =>
        decide (inst.agent_item_value A i > 0) &&
          decide (inst.cat_of i = c)) := by
  unfold goodQual
  rw [allItems_pair, bundleOf_pair_left, List.filter_append]
  have h2 : lA.filter (fun i =>
      decide (i ∉ lA) && decide (inst.agent_item_value A i > 0) &&
        decide (inst.cat_of i = c)) = [] := by
    rw [List.filter_eq_nil_iff]
    intro i hi
    simp [hi]
  rw [h2, List.nil_append]
  apply List.filter_congr
  intro i hi
  have : i ∉ lA := fun hA => hdisj i hA hi
  simp [this]

theorem goodQual_pair_right (inst : Instance) (A B : Agent)
    (lA lB : List Item) (c : Cat) (hAB : A ≠ B)
    (hdisj : ∀ i ∈ lA, i ∉ lB) :
    goodQual inst [(A, lA), (B, lB)] B c =
      lA.filter (fun i =>
        decide (inst.agent_item_value B i > 0) &&
          decide (inst.cat_of i = c)) := by
  unfold goodQual
  rw [allItems_pair, bundleOf_pair_right A B lA lB hAB, List.filter_append]
  have h2 : lB.filter (fun i =>
      decide (i ∉ lB) && decide (inst.agent_item_value B i > 0) &&
        decide (inst.cat_of i = c)) = [] := by
    rw [List.filter_eq_nil_iff]
    intro i hi
    simp [hi]
  rw [h2, List.append_nil]
  apply List.filter_congr
  intro i hi
  simp [hdisj i hi]

/-! ### Evaluations of the concrete instances -/

theorem eval_CE : is_EF11 instCE bundlesCE = some vCE := by
  norm_num [is_EF11, resolve, dirFails, swapListOf, gapOf, bvOf, aggregate,
    allItems, bundlesCE, instCE, bundleOf, aggStep, mkCandidates, updMin,
    updMax, setEntry, lookupCat, minAcc, maxAcc, vCE, candCE, List.foldl,
    List.filterMap, List.any]

theorem eval_C6 : is_EF11 instC6 bundlesCE = some vC6 := by
  norm_num [is_EF11, resolve, dirFails, swapListOf, gapOf, bvOf, aggregate,
    allItems, bundlesCE, instC6, bundleOf, aggStep, mkCandidates, updMin,
    updMax, setEntry, lookupCat, minAcc, maxAcc, vC6, List.foldl,
    List.filterMap, List.any]

theorem eval_E : is_EF11 instE bsE = some vE := by
  norm_num [is_EF11, resolve, dirFails, swapListOf, gapOf, bvOf, aggregate,
    allItems, bsE, instE, bundleOf, aggStep, mkCandidates, updMin,
    updMax, setEntry, lookupCat, minAcc, maxAcc, vE, List.foldl,
    List.filterMap, List.any]

theorem gapA_CE : gapOf instCE bundlesCE 0 = -16 := by
  norm_num [gapOf, aggregate, allItems, bundlesCE, instCE, bundleOf,
    aggStep, List.foldl]

theorem gapB_CE : gapOf instCE bundlesCE 1 = -3 := by
  norm_num [gapOf, aggregate, allItems, bundlesCE, instCE, bundleOf,
    aggStep, List.foldl]

theorem gapB_C6 : gapOf instC6 bundlesCE 1 = -1 := by
  norm_num [gapOf, aggregate, allItems, bundlesCE, instC6, bundleOf,
    aggStep, List.foldl]

theorem gapE_0 : gapOf instE bsE 0 = -1 := by
  norm_num [gapOf, aggregate, allItems, bsE, instE, bundleOf, aggStep,
    List.foldl]

theorem gapZ_0 : gapOf instZero bsZ 0 = 0 := by
  norm_num [gapOf, aggregate, allItems, bsZ, instZero, bundleOf, aggStep,
    List.foldl]

theorem gapZ_1 : gapOf instZero bsZ 1 = 0 := by
  norm_num [gapOf, aggregate, allItems, bsZ, instZero, bundleOf, aggStep,
    List.foldl]

theorem swapA_CE : swapListOf instCE bundlesCE 0 = [candCE] := by
  norm_num [swapListOf, gapOf, aggregate, allItems, bundlesCE, instCE,
    bundleOf, aggStep, mkCandidates, updMin, updMax, setEntry, lookupCat,
    candCE, List.foldl, List.filterMap]

theorem goodE_empty : (aggregate instE bsE 0).bestGood = [] := by decide

theorem goodB_C6_empty : (aggregate instC6 bundlesCE 1).bestGood = [] := by
  decide

/-! ### Claims -/

/-- Claim C2: if the first-checked direction fails - agent one's gap is
negative and no recorded candidate eliminates the envy - then the returned
verdict has `is_ef11` false, the violating pair (agent one, agent two), and
an empty swap-pair list for agent two, even when the reverse direction would
have passed (nothing about the reverse direction is assumed here). -/
theorem claim_C2 (inst : Instance) (bs : Bundles) (A B : Agent)
    (lA lB : List Item) (rest : Bundles) (v : Verdict)
    (hbs : bs = (A, lA) :: (B, lB) :: rest)
    (hgap : gapOf inst bs A < 0)
    (hnone : (swapListOf inst bs A).any (fun cd => cd.eliminates_envy) =
      false)
    (hv : is_EF11 inst bs = some v) :
    v.is_ef11 = false ∧ v.violating_pair = some (A, B) ∧
      v.swap_pairsB = [] := by
  subst hbs
  have hd : dirFails inst ((A, lA) :: (B, lB) :: rest) A = true := by
    unfold dirFails
    rw [hnone]
    simp [hgap]
  rw [is_EF11_cons, resolve_failA _ _ _ _ hd] at hv
  injection hv with hv
  subst hv
  exact ⟨rfl, rfl, rfl⟩

/-- Claim C2 witness: on `instCE`/`bundlesCE` the first direction fails and
the verdict is as the claim states. -/
theorem claim_C2_witness :
    vCE.is_ef11 = false ∧ vCE.violating_pair = some (0, 1) ∧
      vCE.swap_pairsB = [] :=
  claim_C2 instCE bundlesCE 0 1 [1, 2] [3] [] vCE rfl
    (by rw [gapA_CE]; norm_num) (by rw [swapA_CE]; rfl) eval_CE

/-- Claim C3: when neither agent envies (both gaps non-negative), the
verdict is a success: `is_ef11` true, no violating pair, and both swap-pair
lists empty. -/
theorem claim_C3 (inst : Instance) (bs : Bundles) (A B : Agent)
    (lA lB : List Item) (rest : Bundles) (v : Verdict)
    (hbs : bs = (A, lA) :: (B, lB) :: rest)
    (hA : 0 ≤ gapOf inst bs A) (hB : 0 ≤ gapOf inst bs B)
    (hv : is_EF11 inst bs = some v) :
    v.is_ef11 = true ∧ v.violating_pair = none ∧ v.swap_pairsA = [] ∧
      v.swap_pairsB = [] := by
  subst hbs
  have hdA : ¬dirFails inst ((A, lA) :: (B, lB) :: rest) A = true := by
    unfold dirFails
    simp [not_lt.mpr hA]
  have hdB : ¬dirFails inst ((A, lA) :: (B, lB) :: rest) B = true := by
    unfold dirFails
    simp [not_lt.mpr hB]
  rw [is_EF11_cons, resolve_ok _ _ _ _ hdA hdB] at hv
  injection hv with hv
  subst hv
  refine ⟨rfl, rfl, ?_, ?_⟩
  · unfold swapListOf
    rw [if_neg (not_lt.mpr hA)]
  · unfold swapListOf
    rw [if_neg (not_lt.mpr hB)]

/-- Claim C3 witness: the all-zero oracle on a two-agent allocation. -/
theorem claim_C3_witness :
    (resolve instZero bsZ 0 1).is_ef11 = true ∧
      (resolve instZero bsZ 0 1).violating_pair = none ∧
      (resolve instZero bsZ 0 1).swap_pairsA = [] ∧
      (resolve instZero bsZ 0 1).swap_pairsB = [] :=
  claim_C3 instZero bsZ 0 1 [1] [2] [] _ rfl
    (by rw [gapZ_0]) (by rw [gapZ_1]) rfl

/-- Claim C7 (amended): a mapping with fewer than two agents makes the
certifier fail with no verdict at all, but a mapping with more than two
agents is not rejected: any mapping with at least two agents produces a
verdict. -/
theorem claim_C7_amended (inst : Instance) (bs : Bundles) :
    (bs.length < 2 → is_EF11 inst bs = none) ∧
      (2 ≤ bs.length → (is_EF11 inst bs).isSome = true) := by
  match bs with
  | [] =>
    exact ⟨fun _ => rfl, fun h => absurd h (by norm_num)⟩
  | [(a, l)] =>
    exact ⟨fun _ => rfl, fun h => absurd h (by norm_num)⟩
  | (a, l) :: (b, m) :: rest =>
    constructor
    · intro h
      simp only [List.length_cons] at h
      omega
    · intro _
      rfl

/-- Claim C7 counterexample: a three-agent mapping is not rejected - the
certifier still returns a verdict. -/
theorem claim_C7_cex :
    (is_EF11 instZero bs7).isSome = true ∧ bs7.length ≠ 2 :=
  ⟨rfl, by norm_num [bs7]⟩

/-- Claim C7 witness for the amended statement: the empty mapping yields no
verdict, while the three-agent mapping yields one. -/
theorem claim_C7_witness :
    is_EF11 instZero [] = none ∧ (is_EF11 instZero bs7).isSome = true :=
  ⟨(claim_C7_amended instZero []).1 (by norm_num),
    (claim_C7_amended instZero bs7).2 (by norm_num [bs7])⟩

/-- Claim C5: every recorded swap candidate has a positive good value, a
negative chore value, a total gain equal to good minus chore (hence
strictly positive), and an elimination flag equal to whether the gain
covers the negation of the envious agent's gap. -/
theorem claim_C5 (inst : Instance) (bs : Bundles) (A B : Agent)
    (lA lB : List Item) (rest : Bundles) (v : Verdict)
    (hbs : bs = (A, lA) :: (B, lB) :: rest)
    (hv : is_EF11 inst bs = some v) :
    (∀ cd ∈ v.swap_pairsA,
       cd.good_value > 0 ∧ cd.chore_value < 0 ∧
         cd.total_gain = cd.good_value - cd.chore_value ∧
         cd.total_gain > 0 ∧
         cd.eliminates_envy =
           decide (cd.total_gain ≥ -(v.bundle_valuesA.gap))) ∧
    (∀ cd ∈ v.swap_pairsB,
       cd.good_value > 0 ∧ cd.chore_value < 0 ∧
         cd.total_gain = cd.good_value - cd.chore_value ∧
         cd.total_gain > 0 ∧
         cd.eliminates_envy =
           decide (cd.total_gain ≥ -(v.bundle_valuesB.gap))) := by
  subst hbs
  rw [is_EF11_cons] at hv
  injection hv with hv
  subst hv
  constructor
  · intro cd hcd
    rw [resolve_swap_pairsA] at hcd
    rw [(resolve_bundle_values inst _ A B).1, bvOf_gap]
    exact swapListOf_fields _ _ _ _ hcd
  · intro cd hcd
    rw [(resolve_bundle_values inst _ A B).2, bvOf_gap]
    exact swapListOf_fields _ _ _ _ (resolve_swap_pairsB_sub _ _ _ _ _ hcd)

/-- Claim C5 witness: the candidate recorded on `instCE`/`bundlesCE`. -/
theorem claim_C5_witness :
    candCE.good_value > 0 ∧ candCE.chore_value < 0 ∧
      candCE.total_gain = candCE.good_value - candCE.chore_value ∧
      candCE.total_gain > 0 ∧
      candCE.eliminates_envy =
        decide (candCE.total_gain ≥ -(vCE.bundle_valuesA.gap)) :=
  (claim_C5 instCE bundlesCE 0 1 [1, 2] [3] [] vCE rfl eval_CE).1 candCE
    (by simp [vCE])

/-- Claim C6 (amended): an envious agent with an empty qualifying-category
intersection makes the verdict fail naming that agent first, for a
direction that is actually evaluated: unconditionally for the first agent,
and for the second agent provided the first direction did not fail. -/
theorem claim_C6_amended (inst : Instance) (bs : Bundles) (A B : Agent)
    (lA lB : List Item) (rest : Bundles) (v : Verdict)
    (hbs : bs = (A, lA) :: (B, lB) :: rest)
    (hv : is_EF11 inst bs = some v) :
    (gapOf inst bs A < 0 →
       (∀ c, (lookupCat (aggregate inst bs A).wostChore c).isSome = true →
          (lookupCat (aggregate inst bs A).bestGood c).isSome = true →
          False) →
       v.is_ef11 = false ∧ v.violating_pair = some (A, B)) ∧
    (¬dirFails inst bs A = true →
       gapOf inst bs B < 0 →
       (∀ c, (lookupCat (aggregate inst bs B).wostChore c).isSome = true →
          (lookupCat (aggregate inst bs B).bestGood c).isSome = true →
          False) →
       v.is_ef11 = false ∧ v.violating_pair = some (B, A)) := by
  subst hbs
  rw [is_EF11_cons] at hv
  injection hv with hv
  subst hv
  constructor
  · intro hgap hempty
    have hnil : swapListOf inst ((A, lA) :: (B, lB) :: rest) A = [] := by
      unfold swapListOf
      rw [if_pos hgap]
      exact mkCandidates_eq_nil _ _ _ hempty
    have hd : dirFails inst ((A, lA) :: (B, lB) :: rest) A = true := by
      unfold dirFails
      rw [hnil]
      simp [hgap]
    rw [resolve_failA _ _ _ _ hd]
    exact ⟨rfl, rfl⟩
  · intro hdA hgap hempty
    have hnil : swapListOf inst ((A, lA) :: (B, lB) :: rest) B = [] := by
      unfold swapListOf
      rw [if_pos hgap]
      exact mkCandidates_eq_nil _ _ _ hempty
    have hd : dirFails inst ((A, lA) :: (B, lB) :: rest) B = true := by
      unfold dirFails
      rw [hnil]
      simp [hgap]
    rw [resolve_failB _ _ _ _ hdA hd]
    exact ⟨rfl, rfl⟩

/-- Claim C6 counterexample: on `instC6`/`bundlesCE` agent 1 envies agent 0
(gap -1) and its direction's qualifying intersection is empty (its best-good
map is empty altogether), yet the verdict's violating pair is (0, 1), not
(1, 0): the claim's conclusion fails for the envious agent 1 because the
first direction failed first. -/
theorem claim_C6_cex :
    is_EF11 instC6 bundlesCE = some vC6 ∧ gapOf instC6 bundlesCE 1 < 0 ∧
      (aggregate instC6 bundlesCE 1).bestGood = [] ∧
      vC6.is_ef11 = false ∧ vC6.violating_pair = some (0, 1) ∧
      vC6.violating_pair ≠ some (1, 0) :=
  ⟨eval_C6, by rw [gapB_C6]; norm_num, goodB_C6_empty, rfl, rfl,
    by simp [vC6]⟩

/-- Claim C6 witness for the amended statement: on `instE`/`bsE` the first
agent envies with an empty intersection and the verdict names it first. -/
theorem claim_C6_witness :
    vE.is_ef11 = false ∧ vE.violating_pair = some (0, 1) :=
  (claim_C6_amended instE bsE 0 1 [1] [2] [] vE rfl eval_E).1
    (by rw [gapE_0]; norm_num)
    (fun c h1 h2 => by
      rw [goodE_empty] at h2
      simp [lookupCat] at h2)

theorem filter_ne_nil_iff (l : List Item) (p : Item → Bool) :
    l.filter p ≠ [] ↔ ∃ i ∈ l, p i = true := by
  rw [ne_eq, List.filter_eq_nil_iff]
  push_neg
  simp

/-- Claim C1 (amended): for a direction the resolver actually evaluates
(the first agent's direction always; the second agent's only when the
first direction did not fail, i.e. the violating pair is not (first,
second)), when the envious agent's gap is negative the categories carrying
a recorded swap candidate are exactly those where the envious agent holds a
negative-valued item and the envied agent holds a positive-valued item (in
the envious agent's eyes), with exactly one candidate per such category,
whether or not it eliminates the envy. -/
theorem claim_C1_amended (inst : Instance) (A B : Agent) (lA lB : List Item)
    (v : Verdict) (hAB : A ≠ B) (hdisj : ∀ i ∈ lA, i ∉ lB)
    (hv : is_EF11 inst [(A, lA), (B, lB)] = some v) :
    (gapOf inst [(A, lA), (B, lB)] A < 0 →
       ∀ c, v.swap_pairsA.countP (fun cd => decide (cd.category = c)) =
         if (∃ i ∈ lA, inst.agent_item_value A i < 0 ∧
              inst.cat_of i = c) ∧
            (∃ j ∈ lB, inst.agent_item_value A j > 0 ∧ inst.cat_of j = c)
         then 1 else 0) ∧
    (v.violating_pair ≠ some (A, B) →
       gapOf inst [(A, lA), (B, lB)] B < 0 →
       ∀ c, v.swap_pairsB.countP (fun cd => decide (cd.category = c)) =
         if (∃ i ∈ lB, inst.agent_item_value B i < 0 ∧
              inst.cat_of i = c) ∧
            (∃ j ∈ lA, inst.agent_item_value B j > 0 ∧ inst.cat_of j = c)
         then 1 else 0) := by
  rw [is_EF11_cons] at hv
  injection hv with hv
  subst hv
  constructor
  · intro hgap c
    rw [resolve_swap_pairsA]
    unfold swapListOf
    rw [if_pos hgap,
      mkCandidates_countP _ _ c _ (wostChore_keys_nodup inst _ A)]
    have h1 : (lookupCat (aggregate inst [(A, lA), (B, lB)] A).wostChore
        c).isSome = true ↔
        ∃ i ∈ lA, inst.agent_item_value A i < 0 ∧ inst.cat_of i = c := by
      rw [wostChore_isSome_iff,
        choreQual_pair_left inst A B lA lB c hdisj, filter_ne_nil_iff]
      simp
    have h2 : (lookupCat (aggregate inst [(A, lA), (B, lB)] A).bestGood
        c).isSome = true ↔
        ∃ j ∈ lB, inst.agent_item_value A j > 0 ∧ inst.cat_of j = c := by
      rw [bestGood_isSome_iff,
        goodQual_pair_left inst A B lA lB c hdisj, filter_ne_nil_iff]
      simp
    rw [if_congr (and_congr h1 h2) rfl rfl]
  · intro hvp hgap c
    have hdA : ¬dirFails inst [(A, lA), (B, lB)] A = true := by
      intro hd
      rw [resolve_failA _ _ _ _ hd] at hvp
      exact hvp rfl
    rw [resolve_swap_pairsB_of_ok _ _ _ _ hdA]
    unfold swapListOf
    rw [if_pos hgap,
      mkCandidates_countP _ _ c _ (wostChore_keys_nodup inst _ B)]
    have h1 : (lookupCat (aggregate inst [(A, lA), (B, lB)] B).wostChore
        c).isSome = true ↔
        ∃ i ∈ lB, inst.agent_item_value B i < 0 ∧ inst.cat_of i = c := by
      rw [wostChore_isSome_iff,
        choreQual_pair_right inst A B lA lB c hAB hdisj, filter_ne_nil_iff]
      simp
    have h2 : (lookupCat (aggregate inst [(A, lA), (B, lB)] B).bestGood
        c).isSome = true ↔
        ∃ j ∈ lA, inst.agent_item_value B j > 0 ∧ inst.cat_of j = c := by
      rw [bestGood_isSome_iff,
        goodQual_pair_right inst A B lA lB c hAB hdisj, filter_ne_nil_iff]
      simp
    rw [if_congr (and_congr h1 h2) rfl rfl]

/-- Claim C1 counterexample: on `instCE`/`bundlesCE` agent 1 is envious
(gap -3), holds the negative item 3 in category 1, and the other agent
holds item 1 of positive value to agent 1 in category 1 - so category 1
qualifies for direction 1-envies-0 - yet no candidate at all is recorded
for agent 1, because the first direction failed and the check stopped. -/
theorem claim_C1_cex :
    is_EF11 instCE bundlesCE = some vCE ∧ vCE.swap_pairsB = [] ∧
      gapOf instCE bundlesCE 1 < 0 ∧
      (3 : Item) ∈ bundleOf bundlesCE 1 ∧
      instCE.agent_item_value 1 3 < 0 ∧ instCE.cat_of 3 = some 1 ∧
      (1 : Item) ∈ bundleOf bundlesCE 0 ∧
      instCE.agent_item_value 1 1 > 0 ∧ instCE.cat_of 1 = some 1 :=
  ⟨eval_CE, rfl, by rw [gapB_CE]; norm_num, by decide, by decide, by decide,
    by decide, by decide, by decide⟩

/-- Claim C1 witness for the amended statement: category 1 qualifies for
direction 0-envies-1 on `instCE` and carries exactly one candidate. -/
theorem claim_C1_witness :
    vCE.swap_pairsA.countP (fun cd => decide (cd.category = some 1)) = 1 := by
  have h := (claim_C1_amended instCE 0 1 [1, 2] [3] vCE (by decide)
    (by decide) eval_CE).1
    (show gapOf instCE bundlesCE 0 < 0 by rw [gapA_CE]; norm_num) (some 1)
  have hcond : (∃ i ∈ ([1, 2] : List Item),
      instCE.agent_item_value 0 i < 0 ∧ instCE.cat_of i = some 1) ∧
      ∃ j ∈ ([3] : List Item),
        instCE.agent_item_value 0 j > 0 ∧ instCE.cat_of j = some 1 :=
    ⟨⟨1, by decide, by decide, by decide⟩,
      ⟨3, by decide, by decide, by decide⟩⟩
  rw [if_pos hcond] at h
  exact h

/-- Localized characterization of a worst-chore entry, given that the
qualifying items of the category reduce to a filter over one list `lX`. -/
theorem chore_char_localized (inst : Instance) (bs : Bundles) (X : Agent)
    (lX : List Item) (c : Cat)
    (hq : choreQual inst bs X c =
      lX.filter (fun j => decide (inst.agent_item_value X j < 0) &&
        decide (inst.cat_of j = c))) :
    (∀ w : ℚ × Item,
       lookupCat (aggregate inst bs X).wostChore c = some w →
       w.2 ∈ lX ∧ inst.agent_item_value X w.2 = w.1 ∧ w.1 < 0 ∧
         inst.cat_of w.2 = c ∧
         (∀ j ∈ lX, inst.agent_item_value X j < 0 → inst.cat_of j = c →
            w.1 ≤ inst.agent_item_value X j) ∧
         (lX.filter (fun j => decide (inst.agent_item_value X j < 0) &&
             decide (inst.cat_of j = c))).find?
           (fun j => decide (inst.agent_item_value X j = w.1)) =
           some w.2) ∧
    ((∃ i ∈ lX, inst.agent_item_value X i < 0 ∧ inst.cat_of i = c) →
       (lookupCat (aggregate inst bs X).wostChore c).isSome = true) := by
  constructor
  · rintro ⟨wv, wi⟩ hw
    obtain ⟨hmem, hval, hlb, hfind⟩ := wostChore_char inst bs X c wv wi hw
    rw [hq] at hmem hfind
    rw [List.mem_filter] at hmem
    obtain ⟨hmem, hpred⟩ := hmem
    simp only [Bool.and_eq_true, decide_eq_true_eq] at hpred
    refine ⟨hmem, hval, hval ▸ hpred.1, hpred.2, ?_, hfind⟩
    intro j hj hvj hcj
    exact hlb j (by rw [hq, List.mem_filter]; exact ⟨hj, by simp [hvj, hcj]⟩)
  · rintro ⟨i, hi, hvi, hci⟩
    rw [wostChore_isSome_iff, hq]
    exact List.ne_nil_of_mem (List.mem_filter.mpr ⟨hi, by simp [hvi, hci]⟩)

/-- Localized characterization of a best-good entry. -/
theorem good_char_localized (inst : Instance) (bs : Bundles) (X : Agent)
    (lY : List Item) (c : Cat)
    (hq : goodQual inst bs X c =
      lY.filter (fun j => decide (inst.agent_item_value X j > 0) &&
        decide (inst.cat_of j = c))) :
    (∀ w : ℚ × Item,
       lookupCat (aggregate inst bs X).bestGood c = some w →
       w.2 ∈ lY ∧ inst.agent_item_value X w.2 = w.1 ∧ w.1 > 0 ∧
         inst.cat_of w.2 = c ∧
         (∀ j ∈ lY, inst.agent_item_value X j > 0 → inst.cat_of j = c →
            inst.agent_item_value X j ≤ w.1) ∧
         (lY.filter (fun j => decide (inst.agent_item_value X j > 0) &&
             decide (inst.cat_of j = c))).find?
           (fun j => decide (inst.agent_item_value X j = w.1)) =
           some w.2) ∧
    ((∃ j ∈ lY, inst.agent_item_value X j > 0 ∧ inst.cat_of j = c) →
       (lookupCat (aggregate inst bs X).bestGood c).isSome = true) := by
  constructor
  · rintro ⟨wv, wi⟩ hw
    obtain ⟨hmem, hval, hub, hfind⟩ := bestGood_char inst bs X c wv wi hw
    rw [hq] at hmem hfind
    rw [List.mem_filter] at hmem
    obtain ⟨hmem, hpred⟩ := hmem
    simp only [Bool.and_eq_true, decide_eq_true_eq] at hpred
    refine ⟨hmem, hval, hval ▸ hpred.1, hpred.2, ?_, hfind⟩
    intro j hj hvj hcj
    exact hub j (by rw [hq, List.mem_filter]; exact ⟨hj, by simp [hvj, hcj]⟩)
  · rintro ⟨j, hj, hvj, hcj⟩
    rw [bestGood_isSome_iff, hq]
    exact List.ne_nil_of_mem (List.mem_filter.mpr ⟨hj, by simp [hvj, hcj]⟩)

/-- Claim C4: for each of the two agents `X` (with the other agent `Y`) and
every category `c`, a stored worst-chore entry of `(X, c)` is an item of
`X`'s bundle with negative value of category `c`, carries that item's
value, minimizes the value among such items, and is the earliest qualifying
item attaining the minimum (so a later item displaced it only when strictly
lower); an entry exists whenever some qualifying item exists; and dually the
best-good entry of `(X, c)` over the other agent's items maximizes with the
same earliest-tie rule. -/
theorem claim_C4 (inst : Instance) (A B : Agent) (lA lB : List Item)
    (hAB : A ≠ B) (hdisj : ∀ i ∈ lA, i ∉ lB) :
    ∀ X lX Y lY, ((X, lX, Y, lY) = (A, lA, B, lB) ∨
        (X, lX, Y, lY) = (B, lB, A, lA)) →
      ∀ c : Cat,
      (∀ w : ℚ × Item,
         lookupCat (aggregate inst [(A, lA), (B, lB)] X).wostChore c =
           some w →
         w.2 ∈ lX ∧ inst.agent_item_value X w.2 = w.1 ∧ w.1 < 0 ∧
           inst.cat_of w.2 = c ∧
           (∀ j ∈ lX, inst.agent_item_value X j < 0 → inst.cat_of j = c →
              w.1 ≤ inst.agent_item_value X j) ∧
           (lX.filter (fun j => decide (inst.agent_item_value X j < 0) &&
               decide (inst.cat_of j = c))).find?
             (fun j => decide (inst.agent_item_value X j = w.1)) =
             some w.2) ∧
      ((∃ i ∈ lX, inst.agent_item_value X i < 0 ∧ inst.cat_of i = c) →
         (lookupCat (aggregate inst [(A, lA), (B, lB)] X).wostChore
             c).isSome = true) ∧
      (∀ w : ℚ × Item,
         lookupCat (aggregate inst [(A, lA), (B, lB)] X).bestGood c =
           some w →
         w.2 ∈ lY ∧ inst.agent_item_value X w.2 = w.1 ∧ w.1 > 0 ∧
           inst.cat_of w.2 = c ∧
           (∀ j ∈ lY, inst.agent_item_value X j > 0 → inst.cat_of j = c →
              inst.agent_item_value X j ≤ w.1) ∧
           (lY.filter (fun j => decide (inst.agent_item_value X j > 0) &&
               decide (inst.cat_of j = c))).find?
             (fun j => decide (inst.agent_item_value X j = w.1)) =
             some w.2) ∧
      ((∃ j ∈ lY, inst.agent_item_value X j > 0 ∧ inst.cat_of j = c) →
         (lookupCat (aggregate inst [(A, lA), (B, lB)] X).bestGood
             c).isSome = true) := by
  rintro X lX Y lY (heq | heq) c
  · simp only [Prod.mk.injEq] at heq
    obtain ⟨rfl, rfl, rfl, rfl⟩ := heq
    have hc := chore_char_localized inst [(X, lX), (Y, lY)] X lX c
      (choreQual_pair_left inst X Y lX lY c hdisj)
    have hg := good_char_localized inst [(X, lX), (Y, lY)] X lY c
      (goodQual_pair_left inst X Y lX lY c hdisj)
    exact ⟨hc.1, hc.2, hg.1, hg.2⟩
  · simp only [Prod.mk.injEq] at heq
    obtain ⟨rfl, rfl, rfl, rfl⟩ := heq
    have hc := chore_char_localized inst [(Y, lY), (X, lX)] X lX c
      (choreQual_pair_right inst Y X lY lX c hAB hdisj)
    have hg := good_char_localized inst [(Y, lY), (X, lX)] X lY c
      (goodQual_pair_right inst Y X lY lX c hAB hdisj)
    exact ⟨hc.1, hc.2, hg.1, hg.2⟩

/-- Claim C4 witness: on `instCE` the worst-chore entry of agent 0 in
category 1 is item 1 with value -10, placed first among the qualifying
items. -/
theorem claim_C4_witness :
    ((-10 : ℚ), (1 : Item)).2 ∈ ([1, 2] : List Item) ∧
      instCE.agent_item_value 0 1 = -10 ∧ ((-10 : ℚ) < 0) ∧
      instCE.cat_of 1 = some 1 ∧
      (([1, 2] : List Item).filter
          (fun j => decide (instCE.agent_item_value 0 j < 0) &&
            decide (instCE.cat_of j = some 1))).find?
        (fun j => decide (instCE.agent_item_value 0 j = -10)) = some 1 := by
  have h := ((claim_C4 instCE 0 1 [1, 2] [3] (by decide) (by decide))
    0 [1, 2] 1 [3] (Or.inl rfl) (some 1)).1 (-10, 1) (by decide)
  exact ⟨h.1, h.2.1, h.2.2.1, h.2.2.2.1, h.2.2.2.2.2⟩

/-- Claim C8: for either perspective agent, the own- and other-bundle
totals are the sums of the perspective values over all traversed items,
split by bundle membership (so zero-valued items participate in the sums),
while an item whose value to the perspective agent is exactly zero is never
the stored item of any worst-chore or best-good entry, in any category. -/
theorem claim_C8 (inst : Instance) (bs : Bundles) (P : Agent) :
    (aggregate inst bs P).totSelf =
        (((allItems bs).filter (fun i => decide (i ∈ bundleOf bs P))).map
          (inst.agent_item_value P)).sum ∧
      (aggregate inst bs P).totOther =
        (((allItems bs).filter (fun i => decide (i ∉ bundleOf bs P))).map
          (inst.agent_item_value P)).sum ∧
      (∀ i, inst.agent_item_value P i = 0 →
        (∀ c (w : ℚ × Item),
           lookupCat (aggregate inst bs P).wostChore c = some w →
             w.2 ≠ i) ∧
        (∀ c (w : ℚ × Item),
           lookupCat (aggregate inst bs P).bestGood c = some w →
             w.2 ≠ i)) := by
  refine ⟨aggregate_totSelf inst bs P, aggregate_totOther inst bs P, ?_⟩
  intro i hzero
  constructor
  · rintro c ⟨wv, wi⟩ hw heq
    simp only [] at heq
    subst heq
    obtain ⟨hmem, hval, _, _⟩ := wostChore_char inst bs P c wv wi hw
    rw [mem_choreQual] at hmem
    have hneg := hmem.2.2.1
    rw [hzero] at hneg
    exact absurd hneg (lt_irrefl 0)
  · rintro c ⟨wv, wi⟩ hw heq
    simp only [] at heq
    subst heq
    obtain ⟨hmem, hval, _, _⟩ := bestGood_char inst bs P c wv wi hw
    rw [mem_goodQual] at hmem
    have hpos := hmem.2.2.1
    rw [hzero] at hpos
    exact absurd hpos (lt_irrefl 0)

/-- Claim C8 witness: item 7 is worth 0 to agent 0 on `instCE`, and the
stored chore item of category 1 (item 1) is indeed not item 7. -/
theorem claim_C8_witness :
    instCE.agent_item_value 0 7 = 0 ∧ ((-10 : ℚ), (1 : Item)).2 ≠ 7 := by
  refine ⟨by decide, ?_⟩
  exact ((claim_C8 instCE bundlesCE 0).2.2 7 (by decide)).1 (some 1)
    (-10, 1) (by decide)

/-- Claim C9: a mapping with more than two agents raises no error: the
certifier returns the verdict of the first two agents in key order, while
the items of every further agent are still traversed (they are part of
`allItems`) and counted into each of the first two agents' other-bundle
totals and best-good candidates. -/
theorem claim_C9 (inst : Instance) (bs : Bundles) (A B C2 : Agent)
    (lA lB lC : List Item) (rest : Bundles)
    (hbs : bs = (A, lA) :: (B, lB) :: (C2, lC) :: rest) :
    is_EF11 inst bs = some (resolve inst bs A B) ∧
      (resolve inst bs A B).agentA = A ∧
      (resolve inst bs A B).agentB = B ∧
      ((resolve inst bs A B).violating_pair = none ∨
        (resolve inst bs A B).violating_pair = some (A, B) ∨
        (resolve inst bs A B).violating_pair = some (B, A)) ∧
      (∀ i ∈ lC, i ∈ allItems bs) ∧
      (resolve inst bs A B).bundle_valuesA.other_bundle_value =
        (((allItems bs).filter (fun i => decide (i ∉ bundleOf bs A))).map
          (inst.agent_item_value A)).sum ∧
      (resolve inst bs A B).bundle_valuesB.other_bundle_value =
        (((allItems bs).filter (fun i => decide (i ∉ bundleOf bs B))).map
          (inst.agent_item_value B)).sum ∧
      (∀ i ∈ allItems bs, i ∉ bundleOf bs A →
         inst.agent_item_value A i > 0 →
         (lookupCat (aggregate inst bs A).bestGood
             (inst.cat_of i)).isSome = true) ∧
      (∀ i ∈ allItems bs, i ∉ bundleOf bs B →
         inst.agent_item_value B i > 0 →
         (lookupCat (aggregate inst bs B).bestGood
             (inst.cat_of i)).isSome = true) := by
  subst hbs
  refine ⟨rfl, (resolve_agents _ _ _ _).1, (resolve_agents _ _ _ _).2,
    resolve_violating_pair_cases _ _ _ _, ?_, ?_, ?_, ?_, ?_⟩
  · intro i hi
    simp only [allItems, List.map_cons, List.flatten_cons, List.mem_append]
    exact Or.inr (Or.inr (Or.inl hi))
  · rw [(resolve_bundle_values inst _ A B).1]
    exact aggregate_totOther inst _ A
  · rw [(resolve_bundle_values inst _ A B).2]
    exact aggregate_totOther inst _ B
  · intro i hi hnot hpos
    rw [bestGood_isSome_iff]
    exact List.ne_nil_of_mem
      ((mem_goodQual inst _ A (inst.cat_of i) i).mpr ⟨hi, hnot, hpos, rfl⟩)
  · intro i hi hnot hpos
    rw [bestGood_isSome_iff]
    exact List.ne_nil_of_mem
      ((mem_goodQual inst _ B (inst.cat_of i) i).mpr ⟨hi, hnot, hpos, rfl⟩)

/-- Claim C9 witness: the three-agent allocation `bs9` yields a verdict for
agents 0 and 1, and item 5, held by the third agent, becomes a best-good
candidate in agent 0's eyes. -/
theorem claim_C9_witness :
    is_EF11 inst9 bs9 = some (resolve inst9 bs9 0 1) ∧
      (lookupCat (aggregate inst9 bs9 0).bestGood
          (inst9.cat_of 5)).isSome = true := by
  have h := claim_C9 inst9 bs9 0 1 2 [1] [2] [5] [] rfl
  exact ⟨h.1, h.2.2.2.2.2.2.2.1 5 (by decide) (by decide) (by decide)⟩

end EF11
